import Mathlib

/-!
# PRSense duplicate-detection core: a shallow embedding and verification

This file embeds, in Lean 4, the duplicate-detection core of the PRSense
repository (TypeScript) and settles a list of claims about it.

Conventions of the embedding:

* JavaScript numbers are modelled as rationals (`ℚ`); machine-float rounding
  is not modelled, as no claim depends on it.  `Number.isInteger x` becomes
  `x.den = 1`.
* JavaScript `Map` (insertion-ordered, in-place update on an existing key)
  is modelled as an association list with `mapGet` / `mapSet`.
  `Set` is modelled as a duplicate-free list in insertion order.
* External built-ins that the repository calls but does not define
  (`Math.sqrt`, the SHA-1 digest of `crypto.createHash`, `Date.now()`, and
  the pluggable embedder, which the spec requires to be a pure function of
  its argument) are abstract parameters collected in `ModelCtx`.  Every
  theorem below holds for every instantiation of these parameters.
* Fallible code returns `Except`; state-mutating methods are explicit
  state-passing functions.
-/

namespace PRSense

/- Rational arithmetic is sealed irreducible upstream; concrete witnesses
below evaluate it, so open it up for this development. -/
attribute [local semireducible] Rat.mul Rat.add Rat.sub Rat.inv

/-- Decidable equality of model results. -/
instance {ε α : Type} [DecidableEq ε] [DecidableEq α] :
    DecidableEq (Except ε α) := fun x y =>
  match x, y with
  | .ok a, .ok b =>
    match decEq a b with
    | isTrue h => isTrue (by rw [h])
    | isFalse h => isFalse (fun hh => h (by injection hh))
  | .error a, .error b =>
    match decEq a b with
    | isTrue h => isTrue (by rw [h])
    | isFalse h => isFalse (fun hh => h (by injection hh))
  | .ok _, .error _ => isFalse (fun hh => by injection hh)
  | .error _, .ok _ => isFalse (fun hh => by injection hh)

/-! ## Association-list model of JavaScript Map -/

/-- First binding of key `k` in an association list, like `Map.get`. -/
def mapGet {κ α : Type} [DecidableEq κ] (m : List (κ × α)) (k : κ) : Option α :=
  (m.find? (fun e => e.1 = k)).map (·.2)

/-- Update the first binding of `k` in place, or append a new binding,
like `Map.set` (JavaScript maps keep insertion order and update in place). -/
def mapSet {κ α : Type} [DecidableEq κ] (m : List (κ × α)) (k : κ) (v : α) :
    List (κ × α) :=
  match m with
  | [] => [(k, v)]
  | e :: rest => if e.1 = k then (k, v) :: rest else e :: mapSet rest k v

/-- Remove the first binding of `k`, like `Map.delete`. -/
def mapErase {κ α : Type} [DecidableEq κ] (m : List (κ × α)) (k : κ) :
    List (κ × α) :=
  match m with
  | [] => []
  | e :: rest => if e.1 = k then rest else e :: mapErase rest k

/-! ## Error taxonomy (src/errors.ts)

The repository raises class-based errors; the claims only distinguish their
kinds, so we model the kinds as one inductive.  `validationError` is the
"invalid_input" kind of the spec. -/

inductive PRError : Type
  | validationError (message : String) (field : String)
  | configurationError (message : String)
  | embeddingError (message : String)
  deriving DecidableEq, Repr

/-! ## Input descriptor (src/prsense.ts PRInput) -/

structure PRInput : Type where
  prId : ℚ
  title : String
  description : String
  files : List String
  diff : Option String
  deriving DecidableEq, Repr

/-! ## Validation (src/validation.ts) -/

/-- JavaScript whitespace test for `trim()` (the ASCII whitespace class;
the code's inputs never use the exotic unicode spaces). -/
def jsIsSpace (c : Char) : Bool :=
  c = ' ' ∨ c = '\t' ∨ c = '\n' ∨ c = '\r' ∨ c.toNat = 11 ∨ c.toNat = 12

/-- JavaScript `trim()`: drop whitespace from both ends. -/
def jsTrim (s : String) : String :=
  ⟨((s.data.dropWhile jsIsSpace).reverse.dropWhile jsIsSpace).reverse⟩

/-- Embedding of `validatePRInput`'s per-file loop: the first offending file
(at any index) raises; indices are tracked only for the error message. -/
def validateFiles : List String → Nat → Except PRError Unit
  | [], _ => .ok ()
  | f :: rest, i =>
    if (jsTrim f).length = 0 then
      .error (.validationError ("files " ++ toString i ++ " must be a non-empty string") ("files " ++ toString i))
    else if 500 < f.length then
      .error (.validationError ("files " ++ toString i ++ " must be 500 characters or less") ("files " ++ toString i))
    else validateFiles rest (i + 1)

/-- Embedding of `validatePRInput` (src/validation.ts, lines 12-64).
Typeof checks that are statically true in the typed model are omitted;
every dynamic constraint is kept in source order. -/
def validatePRInput (pr : PRInput) : Except PRError Unit :=
  if ¬ (pr.prId.den = 1 ∧ 0 < pr.prId) then
    .error (.validationError "prId must be a positive integer" "prId")
  else if (jsTrim pr.title).length = 0 then
    .error (.validationError "title must be a non-empty string" "title")
  else if 500 < pr.title.length then
    .error (.validationError "title must be 500 characters or less" "title")
  else if 10000 < pr.description.length then
    .error (.validationError "description must be 10,000 characters or less" "description")
  else if 1000 < pr.files.length then
    .error (.validationError "files array must contain 1000 or fewer items" "files")
  else match validateFiles pr.files 0 with
    | .error e => .error e
    | .ok _ =>
      match pr.diff with
      | none => .ok ()
      | some d =>
        if 500000 < d.length then
          .error (.validationError "diff must be 500KB or less" "diff")
        else .ok ()

/-- Control characters stripped by `sanitizeString`:
the regexp class 0x00-0x08, 0x0B, 0x0C, 0x0E-0x1F, 0x7F. -/
def isStrippedControl (c : Char) : Bool :=
  c.toNat ≤ 8 ∨ c.toNat = 11 ∨ c.toNat = 12 ∨
    (14 ≤ c.toNat ∧ c.toNat ≤ 31) ∨ c.toNat = 127

/-- Embedding of `sanitizeString` (src/validation.ts): remove null bytes and
control characters except newlines and tabs. -/
def sanitizeString (input : String) : String :=
  ⟨input.data.filter (fun c => ¬ isStrippedControl c)⟩

/-- One left-to-right pass removing every (non-overlapping) occurrence of the
substring dot-dot-slash, exactly as a single global regexp replace does. -/
def removeDotDotSlash : List Char → List Char
  | '.' :: '.' :: '/' :: rest => removeDotDotSlash rest
  | c :: rest => c :: removeDotDotSlash rest
  | [] => []

/-- One left-to-right pass removing every occurrence of dot-dot-backslash
(dead after backslash replacement, kept for faithfulness to the source). -/
def removeDotDotBackslash : List Char → List Char
  | '.' :: '.' :: '\\' :: rest => removeDotDotBackslash rest
  | c :: rest => c :: removeDotDotBackslash rest
  | [] => []

/-- Embedding of `sanitizeFilePath` (src/validation.ts, lines 160-173):
remove null bytes, replace backslashes with slashes, remove leading slashes,
then remove dot-dot-slash and dot-dot-backslash occurrences. -/
def sanitizeFilePath (filePath : String) : String :=
  let s1 := filePath.data.filter (fun c => c.toNat ≠ 0)
  let s2 := s1.map (fun c => if c = '\\' then '/' else c)
  let s3 := s2.dropWhile (fun c => c = '/')
  let s4 := removeDotDotSlash s3
  ⟨removeDotDotBackslash s4⟩

/-- Split a character list on slashes (the separators are dropped). -/
def splitOnSlash : List Char → List (List Char)
  | [] => [[]]
  | c :: rest =>
    let r := splitOnSlash rest
    if c = '/' then [] :: r
    else (c :: r.headD []) :: r.tail

/-- Spec-side predicate: the path, split on slashes, has a dot-dot segment.
Used only to state the path-traversal claim. -/
def hasDotDotSegment (s : String) : Bool :=
  (splitOnSlash s.data).contains ['.', '.']

/-! ## Vector math (src/similarity.ts, src/jaccard.ts) -/

/-- Embedding of `cosine` (src/similarity.ts).  The loop runs over the
overlapping prefix, which `List.zip` produces; `Math.sqrt` is the abstract
parameter `sq`.  If either squared norm is zero the result is zero. -/
def cosine (sq : ℚ → ℚ) (a b : List ℚ) : ℚ :=
  let ps := a.zip b
  let dot := (ps.map (fun p => p.1 * p.2)).sum
  let normA := (ps.map (fun p => p.1 * p.1)).sum
  let normB := (ps.map (fun p => p.2 * p.2)).sum
  if normA = 0 ∨ normB = 0 then 0 else dot / (sq normA * sq normB)

/-- JavaScript `new Set(list)`: duplicates collapse, first occurrence kept. -/
def jsSet (l : List String) : List String :=
  l.foldl (fun acc x => if acc.contains x then acc else acc ++ [x]) []

/-- Embedding of `jaccard` (src/jaccard.ts) on the duplicate-free lists that
model the two sets. -/
def jaccardSets (a b : List String) : ℚ :=
  if a.length = 0 ∧ b.length = 0 then 1
  else if a.length = 0 ∨ b.length = 0 then 0
  else
    let sl := if a.length < b.length then (a, b) else (b, a)
    let inter := (sl.1.filter (fun v => sl.2.contains v)).length
    let union := a.length + b.length - inter
    if union = 0 then 0 else (inter : ℚ) / (union : ℚ)

/-- The `jaccard(new Set(prFiles), new Set(candFiles))` call as made by the
detector. -/
def jaccard (a b : List String) : ℚ :=
  jaccardSets (jsSet a) (jsSet b)

/-! ## Base64 (Node Buffer toString base64 / Buffer.from base64)

The bloom filter exports its raw byte array through Node's base64 codec.
We embed the codec on byte lists (naturals below 256). -/

/-- The standard base64 alphabet. -/
def b64Alphabet : List Char :=
  "ABCDEFGHIJKLMNOPQRSTUVWXYZabcdefghijklmnopqrstuvwxyz0123456789+/".data

/-- Character for a sextet value. -/
def sextetChar (n : Nat) : Char := b64Alphabet.getD n 'A'

/-- Sextet value of an alphabet character. -/
def charSextet (c : Char) : Nat :=
  match b64Alphabet.indexOf? c with
  | some i => i
  | none => 0

/-- Base64 encoding of a byte list, three bytes to four characters, with
padding on a one- or two-byte tail. -/
def b64Encode : List Nat → List Char
  | b1 :: b2 :: b3 :: rest =>
    sextetChar (b1 / 4) :: sextetChar (b1 % 4 * 16 + b2 / 16) ::
      sextetChar (b2 % 16 * 4 + b3 / 64) :: sextetChar (b3 % 64) :: b64Encode rest
  | [b1, b2] =>
    [sextetChar (b1 / 4), sextetChar (b1 % 4 * 16 + b2 / 16),
      sextetChar (b2 % 16 * 4), '=']
  | [b1] =>
    [sextetChar (b1 / 4), sextetChar (b1 % 4 * 16), '=', '=']
  | [] => []

/-- Base64 decoding of a character list, four characters to three bytes,
honouring padding. -/
def b64Decode : List Char → List Nat
  | c1 :: c2 :: c3 :: c4 :: rest =>
    if c4 = '=' then
      if c3 = '=' then [charSextet c1 * 4 + charSextet c2 / 16]
      else [charSextet c1 * 4 + charSextet c2 / 16,
            charSextet c2 % 16 * 16 + charSextet c3 / 4]
    else
      (charSextet c1 * 4 + charSextet c2 / 16) ::
        (charSextet c2 % 16 * 16 + charSextet c3 / 4) ::
        (charSextet c3 % 4 * 64 + charSextet c4) :: b64Decode rest
  | _ => []

/-! ## Bloom filter (src/bloomFilter.ts) -/

/-- State of `BloomFilter`: bit array (one byte per bit position, as in the
source's `Uint8Array(size)`), its size, and the hash-function count. -/
structure BloomFilter : Type where
  size : Nat
  hashCount : Nat
  bits : List Nat
  deriving DecidableEq, Repr

namespace BloomFilter

/-- The constructor `new BloomFilter(size, hashes)`. -/
def mk0 (size hashCount : Nat) : BloomFilter :=
  ⟨size, hashCount, List.replicate size 0⟩

/-- The seeded polynomial rolling hash `hash(value, seed)`:
`h = (h * 31 + charCode) % size` folded over the characters, starting at
the seed. -/
def hashVal (b : BloomFilter) (value : String) (seed : Nat) : Nat :=
  value.data.foldl (fun h c => (h * 31 + c.toNat) % b.size) seed

/-- The method `add(value)`: set the k seeded bit positions to one. -/
def add (b : BloomFilter) (value : String) : BloomFilter :=
  let newBits :=
    (List.range b.hashCount).foldl
      (fun bs i => bs.set (b.hashVal value (i + 1)) 1) b.bits
  { b with bits := newBits }

/-- The method `mightContain(value)`: false only when some seeded bit
position reads zero.  An out-of-range typed-array read yields `undefined`
in the source, which the strict equality with zero does not catch; `get?`
returning `none` models this exactly. -/
def mightContain (b : BloomFilter) (value : String) : Bool :=
  (List.range b.hashCount).all (fun i => b.bits.get? (b.hashVal value (i + 1)) ≠ some 0)

/-- The method `export()`: base64 of the raw byte array. -/
def exportBase64 (b : BloomFilter) : String :=
  ⟨b64Encode b.bits⟩

/-- The method `import(data)`: decode, fail on a size mismatch, else replace
the byte array. -/
def importBase64 (b : BloomFilter) (data : String) : Except String BloomFilter :=
  let buffer := b64Decode data.data
  if buffer.length ≠ b.size then
    .error ("Bloom filter size mismatch: expected " ++ toString b.size ++
      ", got " ++ toString buffer.length)
  else .ok { b with bits := buffer }

end BloomFilter

/-! ## Attribution graph (src/attributionGraph.ts) -/

/-- State of `AttributionGraph`: the `parent` map and the `children` map
(each child set kept as a duplicate-free list in insertion order). -/
structure AttributionGraph : Type where
  parent : List (ℚ × ℚ)
  children : List (ℚ × List ℚ)
  deriving DecidableEq, Repr

namespace AttributionGraph

/-- The empty graph `new AttributionGraph()`. -/
def empty : AttributionGraph := ⟨[], []⟩

/-- The method `addEdge(duplicatedPrId, originalPrId)`. -/
def addEdge (g : AttributionGraph) (duplicatedPrId originalPrId : ℚ) :
    AttributionGraph :=
  let kids := (mapGet g.children originalPrId).getD []
  { parent := mapSet g.parent duplicatedPrId originalPrId,
    children := mapSet g.children originalPrId
      (if kids.contains duplicatedPrId then kids else kids ++ [duplicatedPrId]) }

/-- The body of `getOriginal` is an unbounded `while (parent.has(current))`
loop; we embed it as a fuel-indexed approximation.  With zero fuel the
answer is `none` exactly when the loop would still be running. -/
def getOriginalFuel (g : AttributionGraph) : Nat → ℚ → Option ℚ
  | 0, current => if mapGet g.parent current = none then some current else none
  | n + 1, current =>
    match mapGet g.parent current with
    | none => some current
    | some p => getOriginalFuel g n p

/-- Termination of the source's `getOriginal(prId)` loop: some finite number
of iterations reaches a parentless node. -/
def GetOriginalTerminates (g : AttributionGraph) (prId : ℚ) : Prop :=
  ∃ n, (getOriginalFuel g n prId).isSome

/-- Parent-walk reachability: the loop variable can move from the first
node to the second by following `parent` entries. -/
inductive ParentReaches (g : AttributionGraph) : ℚ → ℚ → Prop
  | refl (a : ℚ) : ParentReaches g a a
  | step {a b c : ℚ} : mapGet g.parent a = some b → ParentReaches g b c →
      ParentReaches g a c

end AttributionGraph

/-! ## Embedding cache (src/embeddingCache.ts) -/

/-- A cached pair of embeddings with its insertion time. -/
structure CacheEntry : Type where
  textEmbedding : List ℚ
  diffEmbedding : List ℚ
  cachedAt : Nat
  deriving DecidableEq, Repr

/-- State of `EmbeddingCache`: insertion-ordered entry map (the LRU order),
capacity, and the hit and miss counters. -/
structure EmbeddingCache : Type where
  entries : List (String × CacheEntry)
  maxSize : Nat
  hits : Nat
  misses : Nat
  deriving DecidableEq, Repr

/-- Hexadecimal rendering of a 32-bit two's-complement pattern, as
JavaScript's `toString(16)` prints the signed value. -/
def jsInt32Hex (pattern : Nat) : String :=
  if pattern < 2147483648 then ⟨Nat.toDigits 16 pattern⟩
  else "-" ++ ⟨Nat.toDigits 16 (4294967296 - pattern)⟩

/-- Embedding of `generateKey`: the 32-bit string hash
`hash = (hash << 5) - hash + charCode` (that is, `hash * 31 + charCode` on
the 32-bit bit pattern) of title, description, and diff joined by
newlines, rendered as `emb_` plus the signed hexadecimal. -/
def generateKey (title description diff : String) : String :=
  let content := title ++ "\n" ++ description ++ "\n" ++ diff
  let h := content.data.foldl
    (fun h c => (h * 31 + c.toNat) % 4294967296) 0
  "emb_" ++ jsInt32Hex h

namespace EmbeddingCache

/-- A fresh cache, `new EmbeddingCache(maxSize)`. -/
def mk0 (maxSize : Nat) : EmbeddingCache := ⟨[], maxSize, 0, 0⟩

/-- The method `get`: on a hit bump `hits` and move the entry to the end
(LRU refresh); on a miss bump `misses`. -/
def get (c : EmbeddingCache) (title description diff : String) :
    Option CacheEntry × EmbeddingCache :=
  let key := generateKey title description diff
  match mapGet c.entries key with
  | some e =>
    (some e, { c with hits := c.hits + 1,
                      entries := mapErase c.entries key ++ [(key, e)] })
  | none => (none, { c with misses := c.misses + 1 })

/-- The eviction loop of `set`: `while (size >= maxSize)` delete the oldest
entry.  (For a capacity of zero the source would loop forever once empty;
the model stops, and every claim below instantiates a positive capacity,
as the constructor-side validation enforces.) -/
def evictOldest (maxSize : Nat) : List (String × CacheEntry) →
    List (String × CacheEntry)
  | [] => []
  | e :: t => if maxSize ≤ (e :: t).length then evictOldest maxSize t else e :: t

/-- The method `set`: evict to below capacity, then insert the entry. -/
def put (c : EmbeddingCache) (now : Nat) (title description diff : String)
    (tv dv : List ℚ) : EmbeddingCache :=
  let key := generateKey title description diff
  { c with entries := mapSet (evictOldest c.maxSize c.entries) key ⟨tv, dv, now⟩ }

/-- The `hitRate` field of `getStats()`. -/
def hitRate (c : EmbeddingCache) : ℚ :=
  if 0 < c.hits + c.misses then (c.hits : ℚ) / ((c.hits : ℚ) + (c.misses : ℚ))
  else 0

end EmbeddingCache

/-! ## Abstract built-ins and the embedding pipeline
(src/embeddingPipeline.ts) -/

/-- External functions the core calls but does not define: the pluggable
embedder (pure by the embedder contract), `crypto` SHA-1 hex digest,
`Math.sqrt`, and `Date.now()`.  All theorems hold for every instantiation. -/
structure ModelCtx : Type where
  embedText : String → List ℚ
  embedDiff : String → List ℚ
  sha1Hex : String → String
  sqrtQ : ℚ → ℚ
  now : Nat

/-- One call made to the pluggable embedder. -/
inductive EmbCall : Type
  | text (s : String)
  | diff (s : String)
  deriving DecidableEq, Repr

/-- Result of `EmbeddingPipeline.run`, together with the embedder calls the
method performs: it always calls `embedText` on title-newline-body and
`embedDiff` on the diff. -/
structure PipelineOutput : Type where
  textEmbedding : List ℚ
  diffEmbedding : List ℚ
  calls : List EmbCall

/-- Embedding of `EmbeddingPipeline.run(title, body, diff)`. -/
def pipelineRun (ctx : ModelCtx) (title body diff : String) : PipelineOutput :=
  let text := title ++ "\n" ++ body
  ⟨ctx.embedText text, ctx.embedDiff diff, [.text text, .diff diff]⟩

/-! ## Storage back-end (src/storage/interface.ts, modelled on the in-process
full-scan implementations, src/storage/sqlite.ts) -/

/-- A persisted record (interface `PRRecord`). -/
structure PRRecord : Type where
  prId : ℚ
  title : String
  description : String
  files : List String
  textEmbedding : List ℚ
  diffEmbedding : List ℚ
  createdAt : Nat
  deriving DecidableEq, Repr

/-- Decision tiers of the detector results. -/
inductive CheckType : Type
  | DUPLICATE
  | POSSIBLE
  | UNIQUE
  deriving DecidableEq, Repr

/-- A persisted check result (interface `CheckResult`). -/
structure CheckRecord : Type where
  prId : ℚ
  resultType : CheckType
  originalPrId : Option ℚ
  confidence : ℚ
  timestamp : Nat
  deriving DecidableEq, Repr

/-- Observable state of a storage back-end: the record table keyed by
identifier and the appended check results. -/
structure StorageState : Type where
  records : List (ℚ × PRRecord)
  checkResults : List CheckRecord
  deriving DecidableEq, Repr

/-- An id-and-score pair returned from candidate retrieval. -/
structure Candidate : Type where
  prId : ℚ
  score : ℚ
  deriving DecidableEq, Repr

/-- Stable insertion step for a descending sort by score.  The inserted
element came before the (sorted) tail in the original list, so on equal
scores it goes first, which is what the stable
`sort((a, b) => b.score - a.score)` produces. -/
def insertScoreDesc (x : Candidate) : List Candidate → List Candidate
  | [] => [x]
  | y :: ys => if y.score ≤ x.score then x :: y :: ys
               else y :: insertScoreDesc x ys

/-- Stable descending sort by score. -/
def sortByScoreDesc : List Candidate → List Candidate
  | [] => []
  | x :: xs => insertScoreDesc x (sortByScoreDesc xs)

/-- Storage `save`: upsert by identifier. -/
def storageSave (s : StorageState) (r : PRRecord) : StorageState :=
  { s with records := mapSet s.records r.prId r }

/-- Storage `saveCheck`: append a check result row. -/
def storageSaveCheck (s : StorageState) (c : CheckRecord) : StorageState :=
  { s with checkResults := s.checkResults ++ [c] }

/-- Storage `get(prId)`. -/
def storageGet (s : StorageState) (prId : ℚ) : Option PRRecord :=
  mapGet s.records prId

/-- Storage `search`: brute-force scan scoring every record's text embedding
by cosine, sorted descending, truncated to the limit
(src/storage/sqlite.ts, `search`). -/
def storageSearch (ctx : ModelCtx) (s : StorageState) (emb : List ℚ)
    (limit : Nat) : List Candidate :=
  let scores := s.records.map
    (fun e => Candidate.mk e.1 (cosine ctx.sqrtQ emb e.2.textEmbedding))
  (sortByScoreDesc scores).take limit

/-! ## Decision engine (src/decisionEngine.ts) -/

/-- The `Decision` union of src/types.ts. -/
inductive Decision : Type
  | DUPLICATE (originalPr : ℚ)
  | POSSIBLE (originalPr : ℚ)
  | IGNORE
  deriving DecidableEq, Repr

/-- Embedding of the standalone `decide(score, originalPr)` with its fixed
thresholds 0.9 and 0.82. -/
def decide (score : ℚ) (originalPr : ℚ) : Decision :=
  if (9 : ℚ)/10 ≤ score then .DUPLICATE originalPr
  else if (82 : ℚ)/100 ≤ score then .POSSIBLE originalPr
  else .IGNORE

/-! ## Detector core (src/prsense.ts PRSenseDetector) -/

/-- In-memory metadata mirror entry (interface `PRMetadata` plus the
detector's `files` extension). -/
structure PRMetadata : Type where
  prId : ℚ
  repoId : ℚ
  authorId : ℚ
  title : String
  description : String
  createdAt : Nat
  files : List String
  deriving DecidableEq, Repr

/-- In-memory embeddings mirror entry. -/
structure EmbPair : Type where
  text : List ℚ
  diff : List ℚ
  deriving DecidableEq, Repr

/-- The detector's mutable state: the two in-memory mirrors, the bloom
filter, the attribution graph, the optional composite embedding cache, and
the optional storage back-end. -/
structure DetectorState : Type where
  embeddings : List (ℚ × EmbPair)
  metadata : List (ℚ × PRMetadata)
  bloom : BloomFilter
  graph : AttributionGraph
  cache : Option EmbeddingCache
  storage : Option StorageState
  deriving DecidableEq, Repr

/-- Resolved detector configuration (defaults as in the constructor). -/
structure DetectorConfig : Type where
  duplicateThreshold : ℚ := 9/10
  possibleThreshold : ℚ := 82/100
  weights : ℚ × ℚ × ℚ := (45/100, 35/100, 20/100)
  maxCandidates : Nat := 20

/-- Options of `check` (the `detailed` flag changes only which fields the
caller sees, never state or decisions, and is dropped). -/
structure CheckOptions : Type where
  dryRun : Bool := false

/-- Full score breakdown of one candidate. -/
structure Breakdown : Type where
  textSimilarity : ℚ
  diffSimilarity : ℚ
  fileSimilarity : ℚ
  textContribution : ℚ
  diffContribution : ℚ
  fileContribution : ℚ
  finalScore : ℚ
  weights : ℚ × ℚ × ℚ
  deriving DecidableEq, Repr

/-- A re-ranked candidate: identifier, final weighted score, breakdown. -/
structure Scored : Type where
  prId : ℚ
  score : ℚ
  breakdown : Breakdown
  deriving DecidableEq, Repr

/-- A detection result with its optional breakdown. -/
structure DetailedResult : Type where
  type : CheckType
  originalPr : Option ℚ
  confidence : ℚ
  breakdown : Option Breakdown
  deriving DecidableEq, Repr

/-- The plain detection result returned by `check`. -/
structure DetectionResult : Type where
  type : CheckType
  originalPr : Option ℚ
  confidence : ℚ
  deriving DecidableEq, Repr

/-- The `computeContentHash(title, description, diff)` helper: SHA-1 hex of
the concatenation (diff defaulting to the empty string at call sites). -/
def computeContentHash (ctx : ModelCtx) (title description diff : String) :
    String :=
  ctx.sha1Hex (title ++ description ++ diff)

/-- Embedding of `findCandidates`: delegate to storage search when a
storage is configured, else score the whole in-memory mirror (in insertion
order) by cosine against the stored text embedding, sort descending, take
the top k. -/
def findCandidates (ctx : ModelCtx) (st : DetectorState) (qv : List ℚ)
    (k : Nat) : List Candidate :=
  match st.storage with
  | some stor => storageSearch ctx stor qv k
  | none =>
    let scores := st.embeddings.map
      (fun e => Candidate.mk e.1 (cosine ctx.sqrtQ qv e.2.text))
    (sortByScoreDesc scores).take k

/-- One candidate's score breakdown as built in the re-ranking loop. -/
def mkBreakdown (w : ℚ × ℚ × ℚ) (textSim diffSim fileSim : ℚ) : Breakdown :=
  { textSimilarity := textSim
    diffSimilarity := diffSim
    fileSimilarity := fileSim
    textContribution := w.1 * textSim
    diffContribution := w.2.1 * diffSim
    fileContribution := w.2.2 * fileSim
    finalScore := w.1 * textSim + w.2.1 * diffSim + w.2.2 * fileSim
    weights := w }

/-- The re-ranking loop body over the retrieved candidates: candidates with
no embeddings-mirror or metadata-mirror entry are skipped (`continue`);
the rest get a full breakdown. -/
def scoreCandidates (ctx : ModelCtx) (cfg : DetectorConfig)
    (st : DetectorState) (pr : PRInput) (tv dv : List ℚ)
    (cands : List Candidate) : List Scored :=
  cands.filterMap (fun c =>
    match mapGet st.embeddings c.prId, mapGet st.metadata c.prId with
    | some ce, some cm =>
      let fileSim := jaccard pr.files cm.files
      let textSim := cosine ctx.sqrtQ tv ce.text
      let diffSim := cosine ctx.sqrtQ dv ce.diff
      let bd := mkBreakdown cfg.weights textSim diffSim fileSim
      some ⟨c.prId, bd.finalScore, bd⟩
    | _, _ => none)

/-- One iteration of the best-match loop: replace the running best only
when the later candidate's final score is strictly greater
(`breakdown.finalScore > bestMatch.score`). -/
def bestStep (best y : Scored) : Scored :=
  if best.score < y.score then y else best

/-- The best-match fold over the scored candidates in retrieval order. -/
def selectBest : List Scored → Option Scored
  | [] => none
  | x :: xs => some (xs.foldl bestStep x)

/-- Embedding of `addToIndex`: record the content fingerprint in the bloom,
upsert both in-memory mirrors, and persist to storage when configured. -/
def addToIndex (ctx : ModelCtx) (st : DetectorState) (pr : PRInput)
    (tv dv : List ℚ) : DetectorState :=
  let contentHash :=
    computeContentHash ctx pr.title pr.description (pr.diff.getD "")
  let st1 :=
    { st with
      bloom := st.bloom.add contentHash
      embeddings := mapSet st.embeddings pr.prId ⟨tv, dv⟩
      metadata := mapSet st.metadata pr.prId
        ⟨pr.prId, 0, 0, pr.title, pr.description, ctx.now, pr.files⟩ }
  match st1.storage with
  | none => st1
  | some stor =>
    { st1 with storage := some (storageSave stor
        ⟨pr.prId, pr.title, pr.description, pr.files, tv, dv, ctx.now⟩) }

/-- The decision step of `checkInternal` (src/prsense.ts, lines 466-495):
classify the best match against the configured thresholds (the higher tier
on equality), adding the attribution edge on a non-dry-run duplicate. -/
def decisionStep (cfg : DetectorConfig) (opts : CheckOptions) (prId : ℚ)
    (best : Option Scored) (st : DetectorState) :
    DetailedResult × DetectorState :=
  match best with
  | none => (⟨.UNIQUE, none, 0, none⟩, st)
  | some bm =>
    if cfg.duplicateThreshold ≤ bm.score then
      let st2 := if opts.dryRun then st
                 else { st with graph := st.graph.addEdge prId bm.prId }
      (⟨.DUPLICATE, some bm.prId, bm.score, some bm.breakdown⟩, st2)
    else if cfg.possibleThreshold ≤ bm.score then
      (⟨.POSSIBLE, some bm.prId, bm.score, some bm.breakdown⟩, st)
    else
      (⟨.UNIQUE, none, bm.score, some bm.breakdown⟩, st)

/-- Steps 3-6 of `checkInternal` after the embeddings are in hand:
candidate retrieval, re-ranking, indexing unless dry-run, decision. -/
def afterEmbedding (ctx : ModelCtx) (cfg : DetectorConfig)
    (st : DetectorState) (pr : PRInput) (opts : CheckOptions)
    (tv dv : List ℚ) : Except PRError DetailedResult × DetectorState :=
  let candidates := findCandidates ctx st tv cfg.maxCandidates
  if candidates.isEmpty then
    let st2 := if opts.dryRun then st else addToIndex ctx st pr tv dv
    (.ok ⟨.UNIQUE, none, 0, none⟩, st2)
  else
    let best := selectBest (scoreCandidates ctx cfg st pr tv dv candidates)
    let st2 := if opts.dryRun then st else addToIndex ctx st pr tv dv
    let rs := decisionStep cfg opts pr.prId best st2
    (.ok rs.1, rs.2)

/-- Embedding of `checkInternal` on an already sanitized input: composite
cache lookup (the counters move even on a later failure), pipeline run on a
miss, empty-embedding validation, cache fill, then the retrieval,
re-ranking, indexing and decision steps. -/
def checkInternal (ctx : ModelCtx) (cfg : DetectorConfig)
    (st : DetectorState) (pr : PRInput) (opts : CheckOptions) :
    Except PRError DetailedResult × DetectorState :=
  let diffStr := pr.diff.getD ""
  match st.cache with
  | none =>
    let out := pipelineRun ctx pr.title pr.description diffStr
    if out.textEmbedding.length = 0 then
      (.error (.embeddingError "Text embedding is empty"), st)
    else if out.diffEmbedding.length = 0 then
      (.error (.embeddingError "Diff embedding is empty"), st)
    else afterEmbedding ctx cfg st pr opts out.textEmbedding out.diffEmbedding
  | some c =>
    match c.get pr.title pr.description diffStr with
    | (some entry, c2) =>
      afterEmbedding ctx cfg { st with cache := some c2 } pr opts
        entry.textEmbedding entry.diffEmbedding
    | (none, c2) =>
      let st1 := { st with cache := some c2 }
      let out := pipelineRun ctx pr.title pr.description diffStr
      if out.textEmbedding.length = 0 then
        (.error (.embeddingError "Text embedding is empty"), st1)
      else if out.diffEmbedding.length = 0 then
        (.error (.embeddingError "Diff embedding is empty"), st1)
      else
        let st2 := { st1 with cache := some (c2.put ctx.now pr.title
          pr.description diffStr out.textEmbedding out.diffEmbedding) }
        afterEmbedding ctx cfg st2 pr opts out.textEmbedding out.diffEmbedding

/-- The sanitization step of `check`: strip control characters from title
and description, sanitize each file path, and sanitize the diff when it is
truthy (a present, non-empty string). -/
def sanitizePR (pr : PRInput) : PRInput :=
  { prId := pr.prId
    title := sanitizeString pr.title
    description := sanitizeString pr.description
    files := pr.files.map sanitizeFilePath
    diff := match pr.diff with
      | some d => if d = "" then none else some (sanitizeString d)
      | none => none }

/-- Drop the breakdown for the plain `check` result. -/
def stripBreakdown (r : DetailedResult) : DetectionResult :=
  ⟨r.type, r.originalPr, r.confidence⟩

/-- Embedding of the public `check(pr, options)` (src/prsense.ts, lines
231-266): validate (failing without side effects), sanitize, run the
internal pipeline, and append the analytics row unless dry-run. -/
def check (ctx : ModelCtx) (cfg : DetectorConfig) (st : DetectorState)
    (pr : PRInput) (opts : CheckOptions) :
    Except PRError DetectionResult × DetectorState :=
  match validatePRInput pr with
  | .error e => (.error e, st)
  | .ok _ =>
    let spr := sanitizePR pr
    match checkInternal ctx cfg st spr opts with
    | (.error e, st2) => (.error e, st2)
    | (.ok r, st2) =>
      let st3 :=
        if opts.dryRun then st2
        else match st2.storage with
          | none => st2
          | some stor => { st2 with storage := some (storageSaveCheck stor
              ⟨spr.prId, r.type, r.originalPr, r.confidence, ctx.now⟩) }
      (.ok (stripBreakdown r), st3)

/-- One hydrated hit of `search`. -/
structure SearchResult : Type where
  prId : ℚ
  score : ℚ
  title : String
  description : String
  createdAt : Nat
  files : List String
  deriving DecidableEq, Repr

/-- The hydration of one retrieved candidate in `search`: from the metadata
mirror when present, else from `storage.get`, else dropped. -/
def hydrateCandidate (st : DetectorState) (c : Candidate) :
    Option SearchResult :=
  match mapGet st.metadata c.prId with
  | some m => some ⟨c.prId, c.score, m.title, m.description, m.createdAt, m.files⟩
  | none =>
    match st.storage with
    | none => none
    | some stor =>
      match storageGet stor c.prId with
      | some r => some ⟨r.prId, c.score, r.title, r.description, r.createdAt, r.files⟩
      | none => none

/-- Result of `search(query, limit)` together with the embedder calls made
and the query vector used for retrieval. -/
structure SearchOutput : Type where
  results : List SearchResult
  calls : List EmbCall
  queryEmbedding : List ℚ
  deriving Repr

/-- Embedding of the public `search(query, limit)` (src/prsense.ts, lines
568-611): run the embedding pipeline on `(query, empty, empty)`, retrieve
candidates with the resulting text embedding, and hydrate each hit. -/
def searchOp (ctx : ModelCtx) (st : DetectorState) (query : String)
    (limit : Nat) : SearchOutput :=
  let out := pipelineRun ctx query "" ""
  let candidates := findCandidates ctx st out.textEmbedding limit
  ⟨candidates.filterMap (hydrateCandidate st), out.calls, out.textEmbedding⟩

/-! ## Helper lemmas on the Map model -/

theorem mapGet_nil {κ α : Type} [DecidableEq κ] (k : κ) :
    mapGet ([] : List (κ × α)) k = none := rfl

theorem mapGet_cons_eq {κ α : Type} [DecidableEq κ]
    (e : κ × α) (rest : List (κ × α)) (k : κ) (he : e.1 = k) :
    mapGet (e :: rest) k = some e.2 := by
  simp [mapGet, List.find?, he]

theorem mapGet_cons_ne {κ α : Type} [DecidableEq κ]
    (e : κ × α) (rest : List (κ × α)) (k : κ) (he : ¬ e.1 = k) :
    mapGet (e :: rest) k = mapGet rest k := by
  simp [mapGet, List.find?, he]

theorem mapGet_mapSet_self {κ α : Type} [DecidableEq κ]
    (m : List (κ × α)) (k : κ) (v : α) : mapGet (mapSet m k v) k = some v := by
  induction m with
  | nil => simp [mapGet, mapSet, List.find?]
  | cons e rest ih =>
    by_cases h : e.1 = k
    · rw [mapSet, if_pos h, mapGet_cons_eq _ _ _ rfl]
    · rw [mapSet, if_neg h, mapGet_cons_ne _ _ _ h]
      exact ih

theorem mapGet_mem {κ α : Type} [DecidableEq κ]
    {m : List (κ × α)} {k : κ} {v : α} (h : mapGet m k = some v) : (k, v) ∈ m := by
  induction m with
  | nil => simp [mapGet, List.find?] at h
  | cons e rest ih =>
    by_cases he : e.1 = k
    · rw [mapGet_cons_eq _ _ _ he] at h
      have hv : e.2 = v := Option.some.inj h
      have : (k, v) = e := by
        rcases e with ⟨a, b⟩
        simp only at he hv
        rw [he, hv]
      exact this ▸ List.mem_cons_self _ _
    · rw [mapGet_cons_ne _ _ _ he] at h
      exact List.mem_cons_of_mem _ (ih h)

theorem length_mapSet_of_none {κ α : Type} [DecidableEq κ]
    {m : List (κ × α)} {k : κ} (v : α) (h : mapGet m k = none) :
    (mapSet m k v).length = m.length + 1 := by
  induction m with
  | nil => simp [mapSet]
  | cons e rest ih =>
    by_cases he : e.1 = k
    · rw [mapGet_cons_eq _ _ _ he] at h
      exact absurd h (by simp)
    · rw [mapGet_cons_ne _ _ _ he] at h
      simp [mapSet, he, ih h]

/-! ## Claim C3: decision tiers -/

/-- The decision step's result tier as a two-threshold conditional. -/
theorem decisionStep_type (cfg : DetectorConfig) (opts : CheckOptions)
    (prId : ℚ) (bm : Scored) (st : DetectorState) :
    (decisionStep cfg opts prId (some bm) st).1.type =
      if cfg.duplicateThreshold ≤ bm.score then CheckType.DUPLICATE
      else if cfg.possibleThreshold ≤ bm.score then CheckType.POSSIBLE
      else CheckType.UNIQUE := by
  by_cases h1 : cfg.duplicateThreshold ≤ bm.score
  · by_cases hd : opts.dryRun <;> simp [decisionStep, h1, hd]
  · by_cases h2 : cfg.possibleThreshold ≤ bm.score <;> simp [decisionStep, h1, h2]

/-- C3.  For every best-candidate score and thresholds with
`duplicate_threshold ≥ possible_threshold`, the decision is duplicate
exactly when the score reaches the duplicate threshold, possible exactly
when it reaches the possible threshold but not the duplicate threshold,
and the bottom tier otherwise; equality classifies at the higher tier.
This holds both for the standalone `decide` (fixed thresholds 0.9 and
0.82, bottom tier named IGNORE) and for the detector's decision step
(configured thresholds, bottom tier named UNIQUE). -/
theorem C3_decision_tiers (s p : ℚ) (cfg : DetectorConfig)
    (opts : CheckOptions) (prId : ℚ) (bm : Scored) (st : DetectorState)
    (hth : cfg.possibleThreshold ≤ cfg.duplicateThreshold) :
    ((decide s p = .DUPLICATE p ↔ (9 : ℚ)/10 ≤ s)
      ∧ (decide s p = .POSSIBLE p ↔ (82 : ℚ)/100 ≤ s ∧ s < (9 : ℚ)/10)
      ∧ (decide s p = .IGNORE ↔ s < (82 : ℚ)/100))
    ∧ (((decisionStep cfg opts prId (some bm) st).1.type = .DUPLICATE
          ↔ cfg.duplicateThreshold ≤ bm.score)
      ∧ ((decisionStep cfg opts prId (some bm) st).1.type = .POSSIBLE
          ↔ cfg.possibleThreshold ≤ bm.score ∧ bm.score < cfg.duplicateThreshold)
      ∧ ((decisionStep cfg opts prId (some bm) st).1.type = .UNIQUE
          ↔ bm.score < cfg.possibleThreshold)) := by
  constructor
  · unfold decide
    split_ifs with h1 h2
    · exact ⟨iff_of_true rfl h1,
        iff_of_false (by simp) (by rintro ⟨ha, hb⟩; linarith),
        iff_of_false (by simp) (by intro hh; linarith)⟩
    · exact ⟨iff_of_false (by simp) h1,
        iff_of_true rfl ⟨h2, not_le.mp h1⟩,
        iff_of_false (by simp) (by intro hh; linarith)⟩
    · exact ⟨iff_of_false (by simp) h1,
        iff_of_false (by simp) (by rintro ⟨ha, hb⟩; exact h2 ha),
        iff_of_true rfl (not_le.mp h2)⟩
  · simp only [decisionStep_type]
    split_ifs with h1 h2
    · exact ⟨iff_of_true rfl h1,
        iff_of_false (by simp) (by rintro ⟨ha, hb⟩; linarith),
        iff_of_false (by simp) (by intro hh; linarith)⟩
    · exact ⟨iff_of_false (by simp) h1,
        iff_of_true rfl ⟨h2, not_le.mp h1⟩,
        iff_of_false (by simp) (by intro hh; linarith)⟩
    · exact ⟨iff_of_false (by simp) h1,
        iff_of_false (by simp) (by rintro ⟨ha, hb⟩; exact h2 ha),
        iff_of_true rfl (not_le.mp h2)⟩

/-! ## Claim C5: file-path sanitization -/

/-- Characters of the dot-dot-slash removal output all come from the input. -/
theorem mem_removeDotDotSlash (c : Char) (l : List Char)
    (h : c ∈ removeDotDotSlash l) : c ∈ l := by
  induction l using removeDotDotSlash.induct with
  | case1 rest ih =>
    rw [removeDotDotSlash.eq_1] at h
    exact List.mem_cons_of_mem _ (List.mem_cons_of_mem _ (List.mem_cons_of_mem _ (ih h)))
  | case2 d rest hne ih =>
    rw [removeDotDotSlash.eq_2 d rest hne] at h
    rcases List.mem_cons.mp h with h1 | h2
    · exact h1 ▸ List.mem_cons_self _ _
    · exact List.mem_cons_of_mem _ (ih h2)
  | case3 =>
    rw [removeDotDotSlash.eq_3] at h
    exact absurd h (List.not_mem_nil c)

/-- Characters of the dot-dot-backslash removal output all come from the
input. -/
theorem mem_removeDotDotBackslash (c : Char) (l : List Char)
    (h : c ∈ removeDotDotBackslash l) : c ∈ l := by
  induction l using removeDotDotBackslash.induct with
  | case1 rest ih =>
    rw [removeDotDotBackslash.eq_1] at h
    exact List.mem_cons_of_mem _ (List.mem_cons_of_mem _ (List.mem_cons_of_mem _ (ih h)))
  | case2 d rest hne ih =>
    rw [removeDotDotBackslash.eq_2 d rest hne] at h
    rcases List.mem_cons.mp h with h1 | h2
    · exact h1 ▸ List.mem_cons_self _ _
    · exact List.mem_cons_of_mem _ (ih h2)
  | case3 =>
    rw [removeDotDotBackslash.eq_3] at h
    exact absurd h (List.not_mem_nil c)

/-- Membership survives undoing a dropWhile. -/
theorem mem_of_mem_dropWhile {α : Type} (p : α → Bool) (l : List α) (c : α)
    (h : c ∈ l.dropWhile p) : c ∈ l := by
  induction l with
  | nil => simp at h
  | cons a t ih =>
    cases hp : p a
    · simp only [List.dropWhile, hp] at h
      exact h
    · simp only [List.dropWhile, hp] at h
      exact List.mem_cons_of_mem _ (ih h)

/-- C5 amended.  Sanitization strips null bytes, replaces every backslash
with a forward slash, strips leading slashes, then erases substring
occurrences of dot-dot-slash (and dot-dot-backslash) in one left-to-right
pass; consequently the sanitized path contains no backslash and no null
byte.  It does not erase every dot-dot segment. -/
theorem C5_amended (p : String) :
    '\\' ∉ (sanitizeFilePath p).data ∧ Char.ofNat 0 ∉ (sanitizeFilePath p).data := by
  have base : ∀ c ∈ (sanitizeFilePath p).data,
      c ∈ (p.data.filter (fun c => c.toNat ≠ 0)).map
        (fun c => if c = '\\' then '/' else c) := by
    intro c hc
    have h1 := mem_removeDotDotBackslash c _ hc
    have h2 := mem_removeDotDotSlash c _ h1
    exact mem_of_mem_dropWhile _ _ _ h2
  constructor
  · intro hmem
    rcases List.mem_map.mp (base _ hmem) with ⟨d, _, hd⟩
    by_cases hb : d = '\\' <;> simp [hb] at hd
  · intro hmem
    rcases List.mem_map.mp (base _ hmem) with ⟨d, hdmem, hd⟩
    have hdz : d.toNat ≠ 0 := by simpa using List.of_mem_filter hdmem
    by_cases hb : d = '\\'
    · rw [if_pos hb] at hd
      exact absurd hd (by decide)
    · rw [if_neg hb] at hd
      subst hd
      exact hdz (by decide)

/-- C5 counterexample: a bare dot-dot survives sanitization unchanged and is
a path-traversal segment; moreover four dots and two slashes sanitize to a
string still containing dot-dot-slash. -/
theorem C5_counterexample :
    sanitizeFilePath ".." = ".."
      ∧ hasDotDotSegment (sanitizeFilePath "..") = true
      ∧ sanitizeFilePath "....//" = "../"
      ∧ hasDotDotSegment (sanitizeFilePath "....//") = true := by
  refine ⟨?_, ?_, ?_, ?_⟩ <;> decide

/-! ## Claim C4: best-candidate selection -/

/-- A context whose embedders return the one-element unit vector, with the
identity standing in for the opaque SHA-1 digest and square root (the
square root is only applied to 1 in the scenarios below). -/
def ctxUnit : ModelCtx := ⟨fun _ => [1], fun _ => [1], fun s => s, fun q => q, 1000⟩

/-- A mirrored embedding pair equal to the unit vector. -/
def embOne : EmbPair := ⟨[1], [1]⟩

/-- A detector state whose mirror holds records 5 and 3 (inserted in that
order) with identical embeddings and identical file lists. -/
def stTie : DetectorState :=
  ⟨[(5, embOne), (3, embOne)],
    [(5, ⟨5, 0, 0, "t5", "d5", 10, ["a"]⟩), (3, ⟨3, 0, 0, "t3", "d3", 20, ["a"]⟩)],
    BloomFilter.mk0 64 5, AttributionGraph.empty, none, none⟩

/-- A fresh descriptor matching both mirrored records exactly. -/
def prTie : PRInput := ⟨9, "T", "D", ["a"], none⟩

/-- C4 counterexample: candidates 5 and 3 tie with final score 1, yet check
selects 5 — the first candidate in retrieval order (mirror insertion
order), not the lowest identifier 3. -/
theorem C4_counterexample :
    (check ctxUnit {} stTie prTie {}).1
        = .ok ⟨CheckType.DUPLICATE, some 5, 1⟩
      ∧ ((scoreCandidates ctxUnit {} stTie (sanitizePR prTie) [1] [1]
          (findCandidates ctxUnit stTie [1] 20)).map (fun s => (s.prId, s.score)))
        = [(5, 1), (3, 1)]
      ∧ (3 : ℚ) < 5 := by
  refine ⟨by decide, by decide, by norm_num⟩

/-- The best-match fold returns the first list element attaining the
maximal final score: everything before it scores strictly lower,
everything after it scores no higher. -/
theorem foldl_best_first_max (xs : List Scored) : ∀ (x : Scored),
    ∃ l1 l2,
      x :: xs = l1 ++ (xs.foldl bestStep x) :: l2
      ∧ (∀ z ∈ l1, z.score < (xs.foldl bestStep x).score)
      ∧ (∀ z ∈ l2, z.score ≤ (xs.foldl bestStep x).score) := by
  induction xs with
  | nil => exact fun x => ⟨[], [], rfl, by simp, by simp⟩
  | cons y ys ih =>
    intro x
    by_cases hxy : x.score < y.score
    · have hstep : bestStep x y = y := if_pos hxy
      rw [List.foldl_cons, hstep]
      obtain ⟨l1, l2, heq, hlt, hle⟩ := ih y
      have hyr : y.score ≤ (ys.foldl bestStep y).score := by
        have hymem : y ∈ l1 ++ (ys.foldl bestStep y) :: l2 :=
          heq ▸ List.mem_cons_self y ys
        rcases List.mem_append.mp hymem with hy1 | hy2
        · exact le_of_lt (hlt y hy1)
        · rcases List.mem_cons.mp hy2 with hyy | hy3
          · exact le_of_eq (congrArg Scored.score hyy)
          · exact hle y hy3
      refine ⟨x :: l1, l2, ?_, ?_, hle⟩
      · rw [List.cons_append, ← heq]
      · intro z hz
        rcases List.mem_cons.mp hz with rfl | hz2
        · exact lt_of_lt_of_le hxy hyr
        · exact hlt z hz2
    · have hstep : bestStep x y = x := if_neg hxy
      rw [List.foldl_cons, hstep]
      obtain ⟨l1, l2, heq, hlt, hle⟩ := ih x
      cases l1 with
      | nil =>
        have hx : x = ys.foldl bestStep x := (List.cons.injEq _ _ _ _).mp heq |>.1
        have hys : ys = l2 := (List.cons.injEq _ _ _ _).mp heq |>.2
        refine ⟨[], y :: l2, ?_, by simp, ?_⟩
        · rw [List.nil_append, ← hys, ← hx]
        · intro z hz
          rcases List.mem_cons.mp hz with rfl | hz2
          · exact le_trans (le_of_not_lt hxy) (le_of_eq (congrArg Scored.score hx))
          · exact hle z hz2
      | cons a l1t =>
        have hxa : x = a := (List.cons.injEq _ _ _ _).mp heq |>.1
        have hys : ys = l1t ++ (ys.foldl bestStep x) :: l2 :=
          (List.cons.injEq _ _ _ _).mp heq |>.2
        have hxr : x.score < (ys.foldl bestStep x).score :=
          hxa ▸ hlt a (List.mem_cons_self a l1t)
        refine ⟨x :: y :: l1t, l2, ?_, ?_, hle⟩
        · rw [List.cons_append, List.cons_append, ← hys]
        · intro z hz
          rcases List.mem_cons.mp hz with rfl | hz2
          · exact hxr
          · rcases List.mem_cons.mp hz2 with rfl | hz3
            · exact lt_of_le_of_lt (le_of_not_lt hxy) hxr
            · exact hxa ▸ hlt z (List.mem_cons_of_mem a hz3)

/-- C4 amended.  The re-ranking selection keeps the candidate with the
maximum final weighted score, and on exact ties it keeps the candidate
that came first in retrieval order — for the in-memory scan, mirror
insertion order under a stable sort — not the one with the lowest
identifier.  Selection is deterministic given the retrieval order. -/
theorem C4_amended (l : List Scored) (m : Scored) (h : selectBest l = some m) :
    m ∈ l ∧ (∀ z ∈ l, z.score ≤ m.score)
      ∧ ∃ l1 l2, l = l1 ++ m :: l2 ∧ (∀ z ∈ l1, z.score < m.score) := by
  cases l with
  | nil => exact absurd h (by simp [selectBest])
  | cons x xs =>
    have hm : xs.foldl bestStep x = m := Option.some.inj (by simpa [selectBest] using h)
    obtain ⟨l1, l2, heq, hlt, hle⟩ := foldl_best_first_max xs x
    rw [hm] at heq hlt hle
    refine ⟨?_, ?_, l1, l2, heq, hlt⟩
    · rw [heq]
      exact List.mem_append_right l1 (List.mem_cons_self m l2)
    · intro z hz
      rw [heq] at hz
      rcases List.mem_append.mp hz with hz1 | hz2
      · exact le_of_lt (hlt z hz1)
      · rcases List.mem_cons.mp hz2 with rfl | hz3
        · exact le_rfl
        · exact hle z hz3

/-- Witness for C4 amended on the tie scenario: selection over the scored
list of `stTie` returns candidate 5, which is a member, maximal, and
preceded only by strictly lower scores (vacuously). -/
theorem C4_amended_witness :
    (selectBest (scoreCandidates ctxUnit {} stTie (sanitizePR prTie) [1] [1]
        (findCandidates ctxUnit stTie [1] 20))
      = some ⟨5, 1, mkBreakdown ((45:ℚ)/100, (35:ℚ)/100, (20:ℚ)/100) 1 1 1⟩)
    ∧ (⟨5, 1, mkBreakdown ((45:ℚ)/100, (35:ℚ)/100, (20:ℚ)/100) 1 1 1⟩ : Scored)
        ∈ scoreCandidates ctxUnit {} stTie (sanitizePR prTie) [1] [1]
            (findCandidates ctxUnit stTie [1] 20) :=
  ⟨by decide,
    (C4_amended _ _ (by decide)).1⟩

/-! ## Claim C6: bloom filter -/

/-- Decoding inverts the alphabet on sextet values. -/
theorem charSextet_sextetChar_fin :
    ∀ (n : Fin 64), charSextet (sextetChar n.val) = n.val := by decide

/-- Decoding inverts the alphabet on sextet values, bound form. -/
theorem charSextet_sextetChar {n : Nat} (h : n < 64) :
    charSextet (sextetChar n) = n := charSextet_sextetChar_fin ⟨n, h⟩

/-- No alphabet character is the padding character. -/
theorem sextetChar_ne_pad_fin : ∀ (n : Fin 64), sextetChar n.val ≠ '=' := by
  decide

/-- No alphabet character is the padding character, bound form. -/
theorem sextetChar_ne_pad {n : Nat} (h : n < 64) : sextetChar n ≠ '=' :=
  sextetChar_ne_pad_fin ⟨n, h⟩

/-- Dividing out a packed high part. -/
theorem div16_pack (x y : Nat) (hy : y < 16) : (x * 16 + y) / 16 = x := by
  rw [Nat.add_comm, Nat.add_mul_div_right _ _ (by decide : (0:Nat) < 16),
    Nat.div_eq_of_lt hy]
  exact Nat.zero_add x

/-- Reducing a packed low part. -/
theorem mod16_pack (x y : Nat) (hy : y < 16) : (x * 16 + y) % 16 = y := by
  rw [Nat.mul_comm x 16, Nat.mul_add_mod, Nat.mod_eq_of_lt hy]

/-- Dividing out a packed high part, radix four. -/
theorem div4_pack (x y : Nat) (hy : y < 4) : (x * 4 + y) / 4 = x := by
  rw [Nat.add_comm, Nat.add_mul_div_right _ _ (by decide : (0:Nat) < 4),
    Nat.div_eq_of_lt hy]
  exact Nat.zero_add x

/-- Reducing a packed low part, radix four. -/
theorem mod4_pack (x y : Nat) (hy : y < 4) : (x * 4 + y) % 4 = y := by
  rw [Nat.mul_comm x 4, Nat.mul_add_mod, Nat.mod_eq_of_lt hy]

/-- The base64 codec round-trips every byte list. -/
theorem b64_roundtrip : ∀ (l : List Nat), (∀ b ∈ l, b < 256) →
    b64Decode (b64Encode l) = l
  | [], _ => rfl
  | [b1], h => by
    have hb1 : b1 < 256 := h b1 (by simp)
    have e1 : charSextet (sextetChar (b1 / 4)) = b1 / 4 :=
      charSextet_sextetChar (by omega)
    have e2 : charSextet (sextetChar (b1 % 4 * 16)) = b1 % 4 * 16 :=
      charSextet_sextetChar (by omega)
    have d1 : b1 % 4 * 16 / 16 = b1 % 4 := by
      have h0 := div16_pack (b1 % 4) 0 (by decide)
      rwa [Nat.add_zero] at h0
    simp [b64Encode, b64Decode, e1, e2]
    omega
  | [b1, b2], h => by
    have hb1 : b1 < 256 := h b1 (by simp)
    have hb2 : b2 < 256 := h b2 (by simp)
    have e1 : charSextet (sextetChar (b1 / 4)) = b1 / 4 :=
      charSextet_sextetChar (by omega)
    have e2 : charSextet (sextetChar (b1 % 4 * 16 + b2 / 16)) = b1 % 4 * 16 + b2 / 16 :=
      charSextet_sextetChar (by omega)
    have e3 : charSextet (sextetChar (b2 % 16 * 4)) = b2 % 16 * 4 :=
      charSextet_sextetChar (by omega)
    have hne : sextetChar (b2 % 16 * 4) ≠ '=' := sextetChar_ne_pad (by omega)
    have dA : (b1 % 4 * 16 + b2 / 16) / 16 = b1 % 4 :=
      div16_pack _ _ (by omega)
    have dB : (b1 % 4 * 16 + b2 / 16) % 16 = b2 / 16 :=
      mod16_pack _ _ (by omega)
    have dC : b2 % 16 * 4 / 4 = b2 % 16 := by
      have h0 := div4_pack (b2 % 16) 0 (by decide)
      rwa [Nat.add_zero] at h0
    simp [b64Encode, b64Decode, hne, e1, e2, e3]
    omega
  | b1 :: b2 :: b3 :: rest, h => by
    have hb1 : b1 < 256 := h b1 (by simp)
    have hb2 : b2 < 256 := h b2 (by simp)
    have hb3 : b3 < 256 := h b3 (by simp)
    have e1 : charSextet (sextetChar (b1 / 4)) = b1 / 4 :=
      charSextet_sextetChar (by omega)
    have e2 : charSextet (sextetChar (b1 % 4 * 16 + b2 / 16)) = b1 % 4 * 16 + b2 / 16 :=
      charSextet_sextetChar (by omega)
    have e3 : charSextet (sextetChar (b2 % 16 * 4 + b3 / 64)) = b2 % 16 * 4 + b3 / 64 :=
      charSextet_sextetChar (by omega)
    have e4 : charSextet (sextetChar (b3 % 64)) = b3 % 64 :=
      charSextet_sextetChar (by omega)
    have hne : sextetChar (b3 % 64) ≠ '=' := sextetChar_ne_pad (by omega)
    have dA : (b1 % 4 * 16 + b2 / 16) / 16 = b1 % 4 :=
      div16_pack _ _ (by omega)
    have dB : (b1 % 4 * 16 + b2 / 16) % 16 = b2 / 16 :=
      mod16_pack _ _ (by omega)
    have dD : (b2 % 16 * 4 + b3 / 64) / 4 = b2 % 16 :=
      div4_pack _ _ (by omega)
    have dE : (b2 % 16 * 4 + b3 / 64) % 4 = b3 / 64 :=
      mod4_pack _ _ (by omega)
    have ih := b64_roundtrip rest (fun b hb => h b (by simp [hb]))
    simp [b64Encode, b64Decode, hne, e1, e2, e3, e4, ih]
    omega

/-- Setting a one never creates a zero reading. -/
theorem get?_set_preserve (l : List Nat) (idx i : Nat)
    (h : l.get? i ≠ some 0) : (l.set idx 1).get? i ≠ some 0 := by
  induction l generalizing idx i with
  | nil => exact h
  | cons a t ih =>
    cases idx with
    | zero =>
      cases i with
      | zero => simp
      | succ j => simpa using h
    | succ idx =>
      cases i with
      | zero => simpa using h
      | succ j => simpa using ih idx j (by simpa using h)

/-- After setting position `idx` to one, reading `idx` is never zero (also
when the write was out of range, where the read is `none`). -/
theorem get?_set_self (l : List Nat) (idx : Nat) :
    (l.set idx 1).get? idx ≠ some 0 := by
  induction l generalizing idx with
  | nil => simp
  | cons a t ih =>
    cases idx with
    | zero => simp
    | succ idx => simpa using ih idx

/-- A fold of one-writes preserves nonzero readings. -/
theorem foldl_set_preserve (seeds : List Nat) (posf : Nat → Nat)
    (bits : List Nat) (j : Nat) (h : bits.get? j ≠ some 0) :
    (seeds.foldl (fun bs i => bs.set (posf i) 1) bits).get? j ≠ some 0 := by
  induction seeds generalizing bits with
  | nil => simpa using h
  | cons s t ih => exact ih _ (get?_set_preserve _ _ _ h)

/-- A fold of one-writes leaves every written position nonzero. -/
theorem foldl_set_covers (seeds : List Nat) (posf : Nat → Nat)
    (bits : List Nat) :
    ∀ s ∈ seeds, (seeds.foldl (fun bs i => bs.set (posf i) 1) bits).get? (posf s) ≠ some 0 := by
  induction seeds generalizing bits with
  | nil => intro s hs; simp at hs
  | cons a t ih =>
    intro s hs
    rcases List.mem_cons.mp hs with rfl | hs2
    · exact foldl_set_preserve t posf _ _ (get?_set_self bits (posf s))
    · exact ih _ s hs2

/-- Adding never changes size or hash count. -/
theorem add_size (b : BloomFilter) (v : String) :
    (b.add v).size = b.size ∧ (b.add v).hashCount = b.hashCount := ⟨rfl, rfl⟩

/-- The hash positions depend only on the size. -/
theorem hashVal_congr (b1 b2 : BloomFilter) (h : b1.size = b2.size)
    (v : String) (s : Nat) : b1.hashVal v s = b2.hashVal v s := by
  simp [BloomFilter.hashVal, h]

/-- Membership readings after a single add. -/
theorem mightContain_add_self (b : BloomFilter) (v : String) :
    (b.add v).mightContain v = true := by
  simp only [BloomFilter.mightContain, List.all_eq_true, decide_eq_true_eq]
  intro i hi
  have hv : (b.add v).hashVal v (i + 1) = b.hashVal v (i + 1) :=
    hashVal_congr _ _ rfl v (i + 1)
  rw [hv]
  exact foldl_set_covers (List.range b.hashCount)
    (fun j => b.hashVal v (j + 1)) b.bits i hi

/-- A positive membership answer survives any later add. -/
theorem mightContain_add_preserve (b : BloomFilter) (v w : String)
    (h : b.mightContain v = true) : (b.add w).mightContain v = true := by
  simp only [BloomFilter.mightContain, List.all_eq_true, decide_eq_true_eq] at h ⊢
  intro i hi
  have hv : (b.add w).hashVal v (i + 1) = b.hashVal v (i + 1) :=
    hashVal_congr _ _ rfl v (i + 1)
  rw [hv]
  exact foldl_set_preserve _ _ _ _ (h i hi)

/-- A positive membership answer survives any fold of later adds. -/
theorem mightContain_foldl_preserve (vs : List String) (b : BloomFilter)
    (v : String) (h : b.mightContain v = true) :
    ((vs.foldl BloomFilter.add b).mightContain v) = true := by
  induction vs generalizing b with
  | nil => exact h
  | cons a t ih => exact ih _ (mightContain_add_preserve _ _ _ h)

/-- No false negatives: a value added at any point of an add sequence
answers true afterwards. -/
theorem bloom_no_false_negative (vs : List String) :
    ∀ (b : BloomFilter) (v : String), v ∈ vs →
      ((vs.foldl BloomFilter.add b).mightContain v) = true := by
  induction vs with
  | nil => intro b v hv; simp at hv
  | cons a t ih =>
    intro b v hv
    rcases List.mem_cons.mp hv with rfl | hv2
    · exact mightContain_foldl_preserve t _ v (mightContain_add_self b v)
    · exact ih _ v hv2

/-- C6.  (i) No false negatives: every value added through any sequence of
adds answers true.  (ii) Export to base64 then import into a filter of the
same size succeeds and reproduces a byte-equal bit array, preserving every
membership answer when the hash configuration matches.  (iii) Importing
data whose decoded length differs from the filter size fails with an
explicit error. -/
theorem C6_bloom :
    (∀ (b : BloomFilter) (vs : List String) (v : String), v ∈ vs →
        ((vs.foldl BloomFilter.add b).mightContain v) = true)
    ∧ (∀ (b1 b2 : BloomFilter), b2.size = b1.bits.length →
        (∀ x ∈ b1.bits, x < 256) →
        b2.importBase64 b1.exportBase64 = .ok { b2 with bits := b1.bits }
        ∧ (b2.size = b1.size → b2.hashCount = b1.hashCount → ∀ v,
            ({ b2 with bits := b1.bits } : BloomFilter).mightContain v
              = b1.mightContain v))
    ∧ (∀ (b : BloomFilter) (s : String), (b64Decode s.data).length ≠ b.size →
        ∃ msg, b.importBase64 s = .error msg) := by
  refine ⟨?_, ?_, ?_⟩
  · intro b vs v hv
    exact bloom_no_false_negative vs b v hv
  · intro b1 b2 hsz hb
    have hdec : b64Decode (b64Encode b1.bits) = b1.bits := b64_roundtrip b1.bits hb
    constructor
    · simp only [BloomFilter.importBase64, BloomFilter.exportBase64, hdec]
      rw [if_neg (by rw [hsz]; simp)]
    · intro hs hh v
      simp [BloomFilter.mightContain, BloomFilter.hashVal, hs, hh]
  · intro b s h
    refine ⟨"Bloom filter size mismatch: expected " ++ toString b.size ++
      ", got " ++ toString (b64Decode s.data).length, ?_⟩
    simp [BloomFilter.importBase64, h]

/-- Witness for C6 at concrete inputs: a size-8 two-hash filter, adds of
two values, a same-size round-trip target, and a mismatched import. -/
theorem C6_bloom_witness :
    ("x" ∈ ["x", "y"]
      ∧ ((["x", "y"].foldl BloomFilter.add (BloomFilter.mk0 8 2)).mightContain "x") = true)
    ∧ ((BloomFilter.mk0 8 2).size = ((BloomFilter.mk0 8 2).add "x").bits.length
      ∧ (∀ b ∈ ((BloomFilter.mk0 8 2).add "x").bits, b < 256)
      ∧ (BloomFilter.mk0 8 2).importBase64 (((BloomFilter.mk0 8 2).add "x").exportBase64)
          = .ok { BloomFilter.mk0 8 2 with bits := ((BloomFilter.mk0 8 2).add "x").bits })
    ∧ ((b64Decode ("AA==" : String).data).length ≠ (BloomFilter.mk0 8 2).size
      ∧ ∃ msg, (BloomFilter.mk0 8 2).importBase64 "AA==" = .error msg) := by
  refine ⟨⟨by decide, C6_bloom.1 _ _ _ (by decide)⟩,
          ⟨by decide, by decide, (C6_bloom.2.1 _ _ (by decide) (by decide)).1⟩,
          ⟨by decide, C6_bloom.2.2 _ _ (by decide)⟩⟩

/-! ## Claim C7: termination of the attribution-graph parent walk -/

/-- A two-node parent cycle, as malformed state or an adversarial re-check
sequence can produce (`addEdge` never checks for cycles). -/
def cycleGraph : AttributionGraph :=
  (AttributionGraph.empty.addEdge 1 2).addEdge 2 1

/-- A well-formed chain 3 duplicates 2 duplicates 1. -/
def chainGraph : AttributionGraph :=
  (AttributionGraph.empty.addEdge 2 1).addEdge 3 2

/-- On the two-node cycle, the walk never leaves the cycle: every fuel
bound is exhausted with the loop still running. -/
theorem cycleGraph_walk_stuck :
    ∀ (n : Nat) (c : ℚ), c = 1 ∨ c = 2 →
      AttributionGraph.getOriginalFuel cycleGraph n c = none := by
  intro n
  induction n with
  | zero => rintro c (rfl | rfl) <;> decide
  | succ n ih =>
    rintro c (rfl | rfl)
    · have h1 : mapGet cycleGraph.parent 1 = some 2 := by decide
      rw [AttributionGraph.getOriginalFuel, h1]
      exact ih 2 (Or.inr rfl)
    · have h2 : mapGet cycleGraph.parent 2 = some 1 := by decide
      rw [AttributionGraph.getOriginalFuel, h2]
      exact ih 1 (Or.inl rfl)

/-- C7 counterexample: `getOriginal` does not terminate on every state;
its parent-walk is not bounded, and on the two-node parent cycle the loop
runs forever. -/
theorem C7_counterexample :
    ¬ AttributionGraph.GetOriginalTerminates cycleGraph 1 := by
  rintro ⟨n, hn⟩
  rw [cycleGraph_walk_stuck n 1 (Or.inl rfl)] at hn
  simp at hn

/-- Number of parent-map entries whose key is below the given identifier:
the measure bounding the walk on decreasing graphs. -/
def parentKeysBelow (g : AttributionGraph) (q : ℚ) : Nat :=
  (g.parent.filter (fun e => e.1 < q)).length

/-- A parentless node ends the walk at any fuel. -/
theorem getOriginalFuel_of_no_parent (g : AttributionGraph) (q : ℚ)
    (h : mapGet g.parent q = none) (f : Nat) :
    AttributionGraph.getOriginalFuel g f q = some q := by
  cases f with
  | zero => simp [AttributionGraph.getOriginalFuel, h]
  | succ n => simp [AttributionGraph.getOriginalFuel, h]

/-- Key-count monotonicity of the below-threshold filter. -/
theorem filter_lt_length_mono (l : List (ℚ × ℚ)) (p q : ℚ) (hpq : p < q) :
    (l.filter (fun e => e.1 < p)).length ≤ (l.filter (fun e => e.1 < q)).length := by
  induction l with
  | nil => simp
  | cons a t ih =>
    by_cases h1 : a.1 < p
    · have h2 : a.1 < q := lt_trans h1 hpq
      rw [List.filter_cons_of_pos (by simpa using h1),
          List.filter_cons_of_pos (by simpa using h2)]
      simpa using ih
    · rw [List.filter_cons_of_neg (by simpa using h1)]
      by_cases h2 : a.1 < q
      · rw [List.filter_cons_of_pos (by simpa using h2)]
        exact le_trans ih (by simp)
      · rw [List.filter_cons_of_neg (by simpa using h2)]
        exact ih

/-- The below-threshold key count strictly drops when passing to a key that
is itself below the threshold. -/
theorem filter_lt_length_strict (l : List (ℚ × ℚ)) (p q w : ℚ) (hpq : p < q)
    (hmem : (p, w) ∈ l) :
    (l.filter (fun e => e.1 < p)).length < (l.filter (fun e => e.1 < q)).length := by
  induction l with
  | nil => simp at hmem
  | cons a t ih =>
    rcases List.mem_cons.mp hmem with rfl | hm
    · have h1 : ¬ ((p, w).1 < p) := lt_irrefl p
      have h2 : ((p, w).1 : ℚ) < q := hpq
      rw [List.filter_cons_of_neg (by simp),
          List.filter_cons_of_pos (by simpa using h2)]
      have hmono := filter_lt_length_mono t p q hpq
      simp only [List.length_cons]
      omega
    · by_cases h1 : a.1 < p
      · have h2 : a.1 < q := lt_trans h1 hpq
        rw [List.filter_cons_of_pos (by simpa using h1),
            List.filter_cons_of_pos (by simpa using h2)]
        simpa using ih hm
      · rw [List.filter_cons_of_neg (by simpa using h1)]
        by_cases h2 : a.1 < q
        · rw [List.filter_cons_of_pos (by simpa using h2)]
          exact lt_of_lt_of_le (ih hm) (by simp)
        · rw [List.filter_cons_of_neg (by simpa using h2)]
          exact ih hm

/-- Walk termination on decreasing graphs, with the explicit fuel bound. -/
theorem getOriginal_termination_aux (g : AttributionGraph)
    (hdec : ∀ e ∈ g.parent, e.2 < e.1) :
    ∀ (k : Nat) (q : ℚ), parentKeysBelow g q ≤ k →
      ∃ r, AttributionGraph.getOriginalFuel g (k + 1) q = some r
        ∧ mapGet g.parent r = none ∧ AttributionGraph.ParentReaches g q r := by
  intro k
  induction k with
  | zero =>
    intro q hk
    cases hp : mapGet g.parent q with
    | none =>
      exact ⟨q, by simp [AttributionGraph.getOriginalFuel, hp], hp, .refl q⟩
    | some p =>
      have hplt : p < q := hdec _ (mapGet_mem hp)
      cases hp2 : mapGet g.parent p with
      | none =>
        refine ⟨p, ?_, hp2, .step hp (.refl p)⟩
        simp [AttributionGraph.getOriginalFuel, hp, hp2]
      | some w =>
        exfalso
        have hpos : 0 < parentKeysBelow g q := by
          have hmem2 : (p, w) ∈ g.parent.filter (fun e => e.1 < q) :=
            List.mem_filter.mpr ⟨mapGet_mem hp2, by simpa using hplt⟩
          exact List.length_pos_of_mem hmem2
        omega
  | succ k ih =>
    intro q hk
    cases hp : mapGet g.parent q with
    | none =>
      exact ⟨q, by simp [AttributionGraph.getOriginalFuel, hp], hp, .refl q⟩
    | some p =>
      have hplt : p < q := hdec _ (mapGet_mem hp)
      cases hp2 : mapGet g.parent p with
      | none =>
        refine ⟨p, ?_, hp2, .step hp (.refl p)⟩
        rw [AttributionGraph.getOriginalFuel, hp]
        exact getOriginalFuel_of_no_parent g p hp2 (k + 1)
      | some w =>
        have hlt : parentKeysBelow g p < parentKeysBelow g q :=
          filter_lt_length_strict g.parent p q w hplt (mapGet_mem hp2)
        obtain ⟨r, hr, hrn, hreach⟩ := ih p (by omega)
        refine ⟨r, ?_, hrn, .step hp hreach⟩
        rw [AttributionGraph.getOriginalFuel, hp]
        exact hr

/-- C7 amended.  The source's `getOriginal` walk is not bounded (see the
counterexample on a parent cycle); it does terminate on every state whose
parent entries point to strictly older identifiers — in particular on
every chain built by `addEdge` with newer-to-older edges — with fuel
bounded by the number of parent keys below the start, and it returns the
chain's root: a parentless node reached by following parents. -/
theorem C7_amended (g : AttributionGraph) (prId : ℚ)
    (hdec : ∀ e ∈ g.parent, e.2 < e.1) :
    ∃ r, AttributionGraph.getOriginalFuel g (parentKeysBelow g prId + 1) prId = some r
      ∧ mapGet g.parent r = none
      ∧ AttributionGraph.ParentReaches g prId r
      ∧ AttributionGraph.GetOriginalTerminates g prId := by
  obtain ⟨r, hr, hrn, hreach⟩ :=
    getOriginal_termination_aux g hdec (parentKeysBelow g prId) prId le_rfl
  exact ⟨r, hr, hrn, hreach, ⟨parentKeysBelow g prId + 1, by simp [hr]⟩⟩

/-- Witness for C7 amended on the concrete chain 3 duplicates 2 duplicates
1: the decreasing-parent hypothesis holds and the walk from 3 reaches a
root. -/
theorem C7_amended_witness :
    (∀ e ∈ chainGraph.parent, e.2 < e.1)
    ∧ ∃ r, AttributionGraph.getOriginalFuel chainGraph
          (parentKeysBelow chainGraph 3 + 1) 3 = some r
        ∧ mapGet chainGraph.parent r = none
        ∧ AttributionGraph.ParentReaches chainGraph 3 r
        ∧ AttributionGraph.GetOriginalTerminates chainGraph 3 :=
  ⟨by decide, C7_amended chainGraph 3 (by decide)⟩

/-- Witness for C3 at concrete inputs: the default thresholds satisfy the
hypothesis and a score of 0.95 classifies as duplicate in both engines. -/
theorem C3_decision_tiers_witness :
    (({} : DetectorConfig).possibleThreshold ≤ ({} : DetectorConfig).duplicateThreshold)
    ∧ (decide (95/100) 7 = .DUPLICATE 7 ↔ (9 : ℚ)/10 ≤ 95/100) :=
  ⟨by norm_num [DetectorConfig.possibleThreshold, DetectorConfig.duplicateThreshold],
    (C3_decision_tiers (95/100) 7 {} {} 9
      ⟨5, 95/100, mkBreakdown ((45:ℚ)/100, (35:ℚ)/100, (20:ℚ)/100) 1 1 1⟩
      ⟨[], [], BloomFilter.mk0 64 5, AttributionGraph.empty, none, none⟩
      (by norm_num)).1.1⟩

/-! ## Claim C1: invalid input fails without side effects -/

/-- The input constraints of spec section 3, as the claim enumerates them.
This is the spec-side predicate; `validatePRInput` is the code side. -/
def SpecInvalidInput (pr : PRInput) : Prop :=
  ¬ (pr.prId.den = 1 ∧ 0 < pr.prId)
  ∨ pr.title = ""
  ∨ 500 < pr.title.length
  ∨ 10000 < pr.description.length
  ∨ 1000 < pr.files.length
  ∨ (∃ f ∈ pr.files, f = "" ∨ 500 < f.length)
  ∨ 500000 < (pr.diff.getD "").length

/-- A successful file loop certifies every file entry. -/
theorem validateFiles_ok : ∀ (files : List String) (i : Nat),
    validateFiles files i = .ok () →
    ∀ f ∈ files, (jsTrim f).length ≠ 0 ∧ f.length ≤ 500 := by
  intro files
  induction files with
  | nil => intro i _ f hf; simp at hf
  | cons g rest ih =>
    intro i h f hf
    rw [validateFiles] at h
    split_ifs at h with h1 h2
    · rcases List.mem_cons.mp hf with rfl | hf2
      · exact ⟨h1, le_of_not_lt h2⟩
      · exact ih (i + 1) h f hf2

/-- The file loop only raises the invalid-input kind. -/
theorem validateFiles_err_kind : ∀ (files : List String) (i : Nat) (e : PRError),
    validateFiles files i = .error e → ∃ m fld, e = .validationError m fld := by
  intro files
  induction files with
  | nil => intro i e h; simp [validateFiles] at h
  | cons g rest ih =>
    intro i e h
    rw [validateFiles] at h
    split_ifs at h with h1 h2
    · exact ⟨_, _, (Except.error.inj h).symm⟩
    · exact ⟨_, _, (Except.error.inj h).symm⟩
    · exact ih (i + 1) e h

/-- A successful validation certifies every spec constraint. -/
theorem validatePRInput_ok_sound (pr : PRInput)
    (h : validatePRInput pr = .ok ()) :
    (pr.prId.den = 1 ∧ 0 < pr.prId) ∧ (jsTrim pr.title).length ≠ 0
      ∧ pr.title.length ≤ 500 ∧ pr.description.length ≤ 10000
      ∧ pr.files.length ≤ 1000
      ∧ (∀ f ∈ pr.files, (jsTrim f).length ≠ 0 ∧ f.length ≤ 500)
      ∧ (pr.diff.getD "").length ≤ 500000 := by
  rw [validatePRInput] at h
  split_ifs at h with h1 h2 h3 h4 h5
  cases hfv : validateFiles pr.files 0 with
  | error e => rw [hfv] at h; exact absurd h (by simp)
  | ok u =>
    cases u
    simp only [hfv] at h
    refine ⟨h1, h2, le_of_not_lt h3, le_of_not_lt h4,
      le_of_not_lt h5, validateFiles_ok pr.files 0 hfv, ?_⟩
    cases hd : pr.diff with
    | none => simp
    | some d =>
      simp only [hd] at h
      split_ifs at h with h6
      simpa using le_of_not_lt h6

/-- Validation only raises the invalid-input kind. -/
theorem validatePRInput_err_kind (pr : PRInput) (e : PRError)
    (h : validatePRInput pr = .error e) :
    ∃ m fld, e = .validationError m fld := by
  rw [validatePRInput] at h
  split_ifs at h with h1 h2 h3 h4 h5
  · exact ⟨_, _, (Except.error.inj h).symm⟩
  · exact ⟨_, _, (Except.error.inj h).symm⟩
  · exact ⟨_, _, (Except.error.inj h).symm⟩
  · exact ⟨_, _, (Except.error.inj h).symm⟩
  · cases hfv : validateFiles pr.files 0 with
    | error e2 =>
      simp only [hfv] at h
      obtain ⟨m, fld, hm⟩ := validateFiles_err_kind pr.files 0 e2 hfv
      exact ⟨m, fld, by rw [← Except.error.inj h, hm]⟩
    | ok u =>
      cases u
      simp only [hfv] at h
      cases hd : pr.diff with
      | none =>
        simp only [hd] at h
        exact absurd h (by simp)
      | some d =>
        simp only [hd] at h
        split_ifs at h with h6
        exact ⟨_, _, (Except.error.inj h).symm⟩
  · exact ⟨_, _, (Except.error.inj h).symm⟩

/-- C1.  A descriptor violating any section-3 input constraint makes check
fail with the invalid-input error kind and leaves the whole detector state
— mirrors, bloom, attribution graph, cache and storage — untouched. -/
theorem C1_invalid_input (ctx : ModelCtx) (cfg : DetectorConfig)
    (st : DetectorState) (pr : PRInput) (opts : CheckOptions)
    (h : SpecInvalidInput pr) :
    (∃ msg fld, (check ctx cfg st pr opts).1 = .error (.validationError msg fld))
      ∧ (check ctx cfg st pr opts).2 = st := by
  cases hv : validatePRInput pr with
  | ok u =>
    exfalso
    cases u
    obtain ⟨hid, htne, htle, hdle, hfle, hfall, hdiffle⟩ :=
      validatePRInput_ok_sound pr hv
    rcases h with h | h | h | h | h | ⟨f, hf, hfo⟩ | h
    · exact h hid
    · exact htne (by rw [h]; rfl)
    · omega
    · omega
    · omega
    · rcases hfo with rfl | hlen
      · exact (hfall "" hf).1 (by decide)
      · exact absurd (hfall f hf).2 (by omega)
    · omega
  | error e =>
    obtain ⟨m, fld, rfl⟩ := validatePRInput_err_kind pr e hv
    exact ⟨⟨m, fld, by simp [check, hv]⟩, by simp [check, hv]⟩

/-- Witness for C1: identifier zero violates the positivity constraint; the
check on `stTie` fails with the invalid-input kind and preserves the
state. -/
theorem C1_invalid_input_witness :
    SpecInvalidInput ⟨0, "t", "", [], none⟩
    ∧ ((∃ msg fld, (check ctxUnit {} stTie ⟨0, "t", "", [], none⟩ {}).1
          = .error (.validationError msg fld))
      ∧ (check ctxUnit {} stTie ⟨0, "t", "", [], none⟩ {}).2 = stTie) :=
  ⟨Or.inl (by decide),
    C1_invalid_input ctxUnit {} stTie ⟨0, "t", "", [], none⟩ {} (Or.inl (by decide))⟩

/-! ## Claim C2: dry-run frame -/

/-- In dry-run mode the decision step never touches the state (no
attribution edge is added). -/
theorem decisionStep_dryRun_state (cfg : DetectorConfig) (prId : ℚ)
    (best : Option Scored) (st : DetectorState) :
    (decisionStep cfg ⟨true⟩ prId best st).2 = st := by
  cases best with
  | none => rfl
  | some bm =>
    by_cases h1 : cfg.duplicateThreshold ≤ bm.score
    · simp [decisionStep, h1]
    · by_cases h2 : cfg.possibleThreshold ≤ bm.score <;>
        simp [decisionStep, h1, h2]

/-- In dry-run mode the post-retrieval phase never touches the state (no
indexing, no persistence, no attribution edge). -/
theorem afterEmbedding_dryRun_state (ctx : ModelCtx) (cfg : DetectorConfig)
    (st : DetectorState) (pr : PRInput) (tv dv : List ℚ) :
    (afterEmbedding ctx cfg st pr ⟨true⟩ tv dv).2 = st := by
  unfold afterEmbedding
  by_cases hc : (findCandidates ctx st tv cfg.maxCandidates).isEmpty <;>
    simp [hc, decisionStep_dryRun_state]

/-- In dry-run mode the internal check touches only the composite cache:
both mirrors, the bloom, the graph and the storage are exactly the
pre-call values. -/
theorem checkInternal_dryRun_frame (ctx : ModelCtx) (cfg : DetectorConfig)
    (st : DetectorState) (pr : PRInput) :
    ((checkInternal ctx cfg st pr ⟨true⟩).2.embeddings = st.embeddings)
    ∧ ((checkInternal ctx cfg st pr ⟨true⟩).2.metadata = st.metadata)
    ∧ ((checkInternal ctx cfg st pr ⟨true⟩).2.bloom = st.bloom)
    ∧ ((checkInternal ctx cfg st pr ⟨true⟩).2.graph = st.graph)
    ∧ ((checkInternal ctx cfg st pr ⟨true⟩).2.storage = st.storage) := by
  unfold checkInternal
  cases hcache : st.cache with
  | none =>
    by_cases ht : (pipelineRun ctx pr.title pr.description (pr.diff.getD "")).textEmbedding.length = 0
    · simp [ht]
    · by_cases hd : (pipelineRun ctx pr.title pr.description (pr.diff.getD "")).diffEmbedding.length = 0
      · simp [ht, hd]
      · simp [ht, hd, afterEmbedding_dryRun_state]
  | some c =>
    rcases hget : c.get pr.title pr.description (pr.diff.getD "") with ⟨entry, c2⟩
    cases entry with
    | some e => simp [hget, afterEmbedding_dryRun_state]
    | none =>
      by_cases ht : (pipelineRun ctx pr.title pr.description (pr.diff.getD "")).textEmbedding.length = 0
      · simp [hget, ht]
      · by_cases hd : (pipelineRun ctx pr.title pr.description (pr.diff.getD "")).diffEmbedding.length = 0
        · simp [hget, ht, hd]
        · simp [hget, ht, hd, afterEmbedding_dryRun_state]

/-- In dry-run mode the public check's post-state is exactly the internal
check's post-state: the analytics write is skipped. -/
theorem check_dryRun_state_eq (ctx : ModelCtx) (cfg : DetectorConfig)
    (st : DetectorState) (pr : PRInput)
    (hvalid : validatePRInput pr = .ok ()) :
    (check ctx cfg st pr ⟨true⟩).2
      = (checkInternal ctx cfg st (sanitizePR pr) ⟨true⟩).2 := by
  simp only [check, hvalid]
  rcases hci : checkInternal ctx cfg st (sanitizePR pr) ⟨true⟩ with ⟨res, st2⟩
  cases res with
  | error e => rfl
  | ok r => rfl

/-- Shared helper: the dry-run frame of the public check, used by the
dry-run claims below. -/
theorem check_dryRun_frame_aux (ctx : ModelCtx) (cfg : DetectorConfig)
    (st : DetectorState) (pr : PRInput)
    (hvalid : validatePRInput pr = .ok ()) :
    ((check ctx cfg st pr ⟨true⟩).2.embeddings = st.embeddings)
    ∧ ((check ctx cfg st pr ⟨true⟩).2.metadata = st.metadata)
    ∧ ((check ctx cfg st pr ⟨true⟩).2.bloom = st.bloom)
    ∧ ((check ctx cfg st pr ⟨true⟩).2.graph = st.graph)
    ∧ ((check ctx cfg st pr ⟨true⟩).2.storage = st.storage) := by
  rw [check_dryRun_state_eq ctx cfg st pr hvalid]
  exact checkInternal_dryRun_frame ctx cfg st (sanitizePR pr)

/-- C2.  For a valid descriptor, a dry-run check leaves the in-memory
mirrors (embeddings and metadata), the bloom filter, the attribution
graph, and the storage back-end exactly as they were before the call. -/
theorem C2_dry_run_frame (ctx : ModelCtx) (cfg : DetectorConfig)
    (st : DetectorState) (pr : PRInput)
    (hvalid : validatePRInput pr = .ok ()) :
    ((check ctx cfg st pr ⟨true⟩).2.embeddings = st.embeddings)
    ∧ ((check ctx cfg st pr ⟨true⟩).2.metadata = st.metadata)
    ∧ ((check ctx cfg st pr ⟨true⟩).2.bloom = st.bloom)
    ∧ ((check ctx cfg st pr ⟨true⟩).2.graph = st.graph)
    ∧ ((check ctx cfg st pr ⟨true⟩).2.storage = st.storage) :=
  check_dryRun_frame_aux ctx cfg st pr hvalid

/-- Witness for C2: the tie-state dry-run check of a valid descriptor
preserves all five components. -/
theorem C2_dry_run_frame_witness :
    validatePRInput prTie = .ok ()
    ∧ (((check ctxUnit {} stTie prTie ⟨true⟩).2.embeddings = stTie.embeddings)
      ∧ ((check ctxUnit {} stTie prTie ⟨true⟩).2.metadata = stTie.metadata)
      ∧ ((check ctxUnit {} stTie prTie ⟨true⟩).2.bloom = stTie.bloom)
      ∧ ((check ctxUnit {} stTie prTie ⟨true⟩).2.graph = stTie.graph)
      ∧ ((check ctxUnit {} stTie prTie ⟨true⟩).2.storage = stTie.storage)) :=
  ⟨by decide, C2_dry_run_frame ctxUnit {} stTie prTie (by decide)⟩

/-! ## Claim C9: unmirrored candidates are silently skipped -/

/-- Re-ranking drops every candidate whose identifier has no entry in the
embeddings mirror. -/
theorem scoreCandidates_all_unmirrored (ctx : ModelCtx) (cfg : DetectorConfig)
    (st : DetectorState) (pr : PRInput) (tv dv : List ℚ)
    (cands : List Candidate)
    (h : ∀ c ∈ cands, mapGet st.embeddings c.prId = none) :
    scoreCandidates ctx cfg st pr tv dv cands = [] := by
  induction cands with
  | nil => rfl
  | cons c t ih =>
    have hc := h c (List.mem_cons_self c t)
    have ht := ih (fun d hd => h d (List.mem_cons_of_mem c hd))
    simp only [scoreCandidates, List.filterMap_cons, hc] at ht ⊢
    exact ht

/-- C9.  Candidates returned by retrieval that are absent from the
in-memory mirror are silently skipped during re-ranking; when no retrieved
candidate is mirrored (for example after a skipped init over a populated
storage), check returns unique with confidence zero even though the
storage search returned candidates. -/
theorem C9_unmirrored_skipped (ctx : ModelCtx) (cfg : DetectorConfig)
    (st : DetectorState) (pr : PRInput) (opts : CheckOptions)
    (stor : StorageState)
    (hvalid : validatePRInput pr = .ok ())
    (hcache : st.cache = none)
    (_hstor : st.storage = some stor)
    (hmiss : ∀ c ∈ findCandidates ctx st
        (ctx.embedText ((sanitizePR pr).title ++ "\n" ++ (sanitizePR pr).description))
        cfg.maxCandidates, mapGet st.embeddings c.prId = none)
    (htv : ctx.embedText ((sanitizePR pr).title ++ "\n" ++ (sanitizePR pr).description) ≠ [])
    (hdv : ctx.embedDiff ((sanitizePR pr).diff.getD "") ≠ []) :
    scoreCandidates ctx cfg st (sanitizePR pr)
        (ctx.embedText ((sanitizePR pr).title ++ "\n" ++ (sanitizePR pr).description))
        (ctx.embedDiff ((sanitizePR pr).diff.getD ""))
        (findCandidates ctx st
          (ctx.embedText ((sanitizePR pr).title ++ "\n" ++ (sanitizePR pr).description))
          cfg.maxCandidates) = []
    ∧ (check ctx cfg st pr opts).1 = .ok ⟨CheckType.UNIQUE, none, 0⟩ := by
  have hscored := scoreCandidates_all_unmirrored ctx cfg st (sanitizePR pr)
    (ctx.embedText ((sanitizePR pr).title ++ "\n" ++ (sanitizePR pr).description))
    (ctx.embedDiff ((sanitizePR pr).diff.getD "")) _ hmiss
  refine ⟨hscored, ?_⟩
  have hres : (checkInternal ctx cfg st (sanitizePR pr) opts).1
      = .ok ⟨CheckType.UNIQUE, none, 0, none⟩ := by
    simp only [checkInternal, hcache, pipelineRun]
    rw [if_neg (by simpa using htv), if_neg (by simpa using hdv)]
    simp only [afterEmbedding]
    by_cases hempty : (findCandidates ctx st
        (ctx.embedText ((sanitizePR pr).title ++ "\n" ++ (sanitizePR pr).description))
        cfg.maxCandidates).isEmpty
    · simp [hempty]
    · simp [hempty, hscored, selectBest, decisionStep]
  simp only [check, hvalid]
  rcases hci : checkInternal ctx cfg st (sanitizePR pr) opts with ⟨res, st2⟩
  rw [hci] at hres
  simp only at hres
  subst hres
  rfl

/-- A one-record storage back-end with an empty mirror in front of it. -/
def storOne : StorageState := ⟨[(1, ⟨1, "t", "d", ["a"], [1], [1], 5⟩)], []⟩

/-- A detector state whose mirror is empty while its storage is populated,
as a skipped init leaves it. -/
def stEmptyMirror : DetectorState :=
  ⟨[], [], BloomFilter.mk0 64 5, AttributionGraph.empty, none, some storOne⟩

/-- Witness for C9: the populated storage returns candidate 1, the mirror
is empty, and the check answers unique with confidence zero. -/
theorem C9_unmirrored_skipped_witness :
    (validatePRInput prTie = .ok ()
      ∧ stEmptyMirror.cache = none
      ∧ stEmptyMirror.storage = some storOne
      ∧ findCandidates ctxUnit stEmptyMirror
          (ctxUnit.embedText ((sanitizePR prTie).title ++ "\n" ++ (sanitizePR prTie).description))
          ({} : DetectorConfig).maxCandidates ≠ [])
    ∧ (check ctxUnit {} stEmptyMirror prTie {}).1 = .ok ⟨CheckType.UNIQUE, none, 0⟩ :=
  ⟨⟨by decide, rfl, rfl, by decide⟩,
    (C9_unmirrored_skipped ctxUnit {} stEmptyMirror prTie {} storOne
      (by decide) rfl rfl (by decide) (by decide) (by decide)).2⟩

/-! ## Claim C10: dry-run still mutates the composite cache -/

/-- Eviction is the identity below capacity. -/
theorem evictOldest_of_lt (l : List (String × CacheEntry)) (maxSize : Nat)
    (h : l.length < maxSize) : EmbeddingCache.evictOldest maxSize l = l := by
  cases l with
  | nil => rfl
  | cons e t =>
    rw [EmbeddingCache.evictOldest, if_neg (not_le.mpr h)]

/-- C10.  A dry-run check with the composite cache enabled, on a cache
miss with nonempty embeddings, still mutates the cache: the miss counter
moves, the freshly computed pair is inserted under the content key, the
entry count grows when below capacity, and the observable hit rate changes
whenever there were prior hits — while the mirrors, bloom, graph and
storage stay exactly as before. -/
theorem C10_dry_run_cache_mutation (ctx : ModelCtx) (cfg : DetectorConfig)
    (st : DetectorState) (pr : PRInput) (c : EmbeddingCache)
    (hvalid : validatePRInput pr = .ok ())
    (hcache : st.cache = some c)
    (hmiss : mapGet c.entries (generateKey (sanitizePR pr).title
        (sanitizePR pr).description ((sanitizePR pr).diff.getD "")) = none)
    (htv : ctx.embedText ((sanitizePR pr).title ++ "\n" ++ (sanitizePR pr).description) ≠ [])
    (hdv : ctx.embedDiff ((sanitizePR pr).diff.getD "") ≠ []) :
    ∃ c2 : EmbeddingCache,
      (check ctx cfg st pr ⟨true⟩).2.cache = some c2
      ∧ c2.misses = c.misses + 1
      ∧ c2.hits = c.hits
      ∧ mapGet c2.entries (generateKey (sanitizePR pr).title
          (sanitizePR pr).description ((sanitizePR pr).diff.getD ""))
        = some ⟨ctx.embedText ((sanitizePR pr).title ++ "\n" ++ (sanitizePR pr).description),
            ctx.embedDiff ((sanitizePR pr).diff.getD ""), ctx.now⟩
      ∧ (c.entries.length < c.maxSize →
          c2.entries.length = c.entries.length + 1)
      ∧ (0 < c.hits → c2.hitRate ≠ c.hitRate)
      ∧ (check ctx cfg st pr ⟨true⟩).2.embeddings = st.embeddings
      ∧ (check ctx cfg st pr ⟨true⟩).2.metadata = st.metadata
      ∧ (check ctx cfg st pr ⟨true⟩).2.bloom = st.bloom
      ∧ (check ctx cfg st pr ⟨true⟩).2.graph = st.graph
      ∧ (check ctx cfg st pr ⟨true⟩).2.storage = st.storage := by
  obtain ⟨hfe, hfm, hfb, hfg, hfs⟩ := check_dryRun_frame_aux ctx cfg st pr hvalid
  refine ⟨({ c with misses := c.misses + 1 } : EmbeddingCache).put ctx.now
      (sanitizePR pr).title (sanitizePR pr).description
      ((sanitizePR pr).diff.getD "")
      (ctx.embedText ((sanitizePR pr).title ++ "\n" ++ (sanitizePR pr).description))
      (ctx.embedDiff ((sanitizePR pr).diff.getD "")),
    ?_, rfl, rfl, ?_, ?_, ?_, hfe, hfm, hfb, hfg, hfs⟩
  · rw [check_dryRun_state_eq ctx cfg st pr hvalid]
    simp only [checkInternal, hcache, EmbeddingCache.get, hmiss, pipelineRun]
    rw [if_neg (by simpa using htv), if_neg (by simpa using hdv)]
    rw [afterEmbedding_dryRun_state]
  · exact mapGet_mapSet_self _ _ _
  · intro hlen
    simp only [EmbeddingCache.put]
    rw [evictOldest_of_lt _ _ hlen]
    exact length_mapSet_of_none _ hmiss
  · intro hhits heq
    have hmismatch : (({ c with misses := c.misses + 1 } : EmbeddingCache).put
        ctx.now (sanitizePR pr).title (sanitizePR pr).description
        ((sanitizePR pr).diff.getD "")
        (ctx.embedText ((sanitizePR pr).title ++ "\n" ++ (sanitizePR pr).description))
        (ctx.embedDiff ((sanitizePR pr).diff.getD ""))).hitRate
        = (c.hits : ℚ) / ((c.hits : ℚ) + (c.misses : ℚ) + 1) := by
      have hh : (({ c with misses := c.misses + 1 } : EmbeddingCache).put
          ctx.now (sanitizePR pr).title (sanitizePR pr).description
          ((sanitizePR pr).diff.getD "")
          (ctx.embedText ((sanitizePR pr).title ++ "\n" ++ (sanitizePR pr).description))
          (ctx.embedDiff ((sanitizePR pr).diff.getD ""))).hits = c.hits := rfl
      have hm2 : (({ c with misses := c.misses + 1 } : EmbeddingCache).put
          ctx.now (sanitizePR pr).title (sanitizePR pr).description
          ((sanitizePR pr).diff.getD "")
          (ctx.embedText ((sanitizePR pr).title ++ "\n" ++ (sanitizePR pr).description))
          (ctx.embedDiff ((sanitizePR pr).diff.getD ""))).misses = c.misses + 1 := rfl
      rw [EmbeddingCache.hitRate, hh, hm2, if_pos (by omega)]
      push_cast
      ring
    have hcrate : c.hitRate = (c.hits : ℚ) / ((c.hits : ℚ) + (c.misses : ℚ)) := by
      rw [EmbeddingCache.hitRate, if_pos (by omega)]
    rw [hmismatch, hcrate] at heq
    have hpos1 : (0:ℚ) < (c.hits : ℚ) + (c.misses : ℚ) + 1 := by positivity
    have hpos2 : (0:ℚ) < (c.hits : ℚ) + (c.misses : ℚ) := by
      have : (0:ℚ) < (c.hits : ℚ) := by exact_mod_cast hhits
      positivity
    rw [div_eq_div_iff hpos1.ne' hpos2.ne'] at heq
    have hhne : (c.hits : ℚ) ≠ 0 := by
      have : (0:ℚ) < (c.hits : ℚ) := by exact_mod_cast hhits
      exact ne_of_gt this
    have := mul_left_cancel₀ hhne (by linarith : (c.hits : ℚ) * ((c.hits : ℚ) + (c.misses : ℚ)) = (c.hits : ℚ) * ((c.hits : ℚ) + (c.misses : ℚ) + 1))
    linarith

/-- An empty composite cache of capacity 100. -/
def cacheEmpty : EmbeddingCache := EmbeddingCache.mk0 100

/-- A fresh detector state with the composite cache enabled. -/
def stWithCache : DetectorState :=
  ⟨[], [], BloomFilter.mk0 64 5, AttributionGraph.empty, some cacheEmpty, none⟩

/-- Witness for C10: a dry-run check on the fresh cached state misses the
cache and mutates it as described. -/
theorem C10_dry_run_cache_mutation_witness :
    (validatePRInput prTie = .ok ()
      ∧ stWithCache.cache = some cacheEmpty
      ∧ mapGet cacheEmpty.entries (generateKey (sanitizePR prTie).title
          (sanitizePR prTie).description ((sanitizePR prTie).diff.getD "")) = none)
    ∧ ∃ c2 : EmbeddingCache,
      (check ctxUnit {} stWithCache prTie ⟨true⟩).2.cache = some c2
      ∧ c2.misses = cacheEmpty.misses + 1
      ∧ c2.hits = cacheEmpty.hits
      ∧ mapGet c2.entries (generateKey (sanitizePR prTie).title
          (sanitizePR prTie).description ((sanitizePR prTie).diff.getD ""))
        = some ⟨ctxUnit.embedText ((sanitizePR prTie).title ++ "\n" ++ (sanitizePR prTie).description),
            ctxUnit.embedDiff ((sanitizePR prTie).diff.getD ""), ctxUnit.now⟩
      ∧ (cacheEmpty.entries.length < cacheEmpty.maxSize →
          c2.entries.length = cacheEmpty.entries.length + 1)
      ∧ (0 < cacheEmpty.hits → c2.hitRate ≠ cacheEmpty.hitRate)
      ∧ (check ctxUnit {} stWithCache prTie ⟨true⟩).2.embeddings = stWithCache.embeddings
      ∧ (check ctxUnit {} stWithCache prTie ⟨true⟩).2.metadata = stWithCache.metadata
      ∧ (check ctxUnit {} stWithCache prTie ⟨true⟩).2.bloom = stWithCache.bloom
      ∧ (check ctxUnit {} stWithCache prTie ⟨true⟩).2.graph = stWithCache.graph
      ∧ (check ctxUnit {} stWithCache prTie ⟨true⟩).2.storage = stWithCache.storage :=
  ⟨⟨by decide, rfl, by decide⟩,
    C10_dry_run_cache_mutation ctxUnit {} stWithCache prTie cacheEmpty
      (by decide) rfl (by decide) (by decide) (by decide)⟩

/-! ## Claim C8: search embeds query text only through the text path -/

/-- C8 counterexample: searching "q" makes the pipeline call the diff
embedder (on the empty string) and call the text embedder on the query
text plus a trailing newline, not on the query text alone. -/
theorem C8_counterexample :
    (searchOp ctxUnit stTie "q" 10).calls
        = [EmbCall.text "q\n", EmbCall.diff ""]
      ∧ EmbCall.diff "" ∈ (searchOp ctxUnit stTie "q" 10).calls
      ∧ EmbCall.text "q" ∉ (searchOp ctxUnit stTie "q" 10).calls := by
  refine ⟨by decide, by decide, by decide⟩

/-- C8 amended.  Search derives its query vector through the text embedder
applied to the query text followed by a newline, and additionally invokes
the diff embedder on the empty string with its result unused; candidate
retrieval then runs on that text embedding alone, and each hit is hydrated
from the in-memory mirror with a fall-through to storage get for records
not mirrored. -/
theorem C8_amended (ctx : ModelCtx) (st : DetectorState) (query : String)
    (limit : Nat) :
    (searchOp ctx st query limit).calls
        = [EmbCall.text (query ++ "\n"), EmbCall.diff ""]
    ∧ (searchOp ctx st query limit).queryEmbedding
        = ctx.embedText (query ++ "\n")
    ∧ (searchOp ctx st query limit).results
        = (findCandidates ctx st (ctx.embedText (query ++ "\n")) limit).filterMap
            (hydrateCandidate st)
    ∧ (∀ (cand : Candidate) (m : PRMetadata),
        mapGet st.metadata cand.prId = some m →
        hydrateCandidate st cand
          = some ⟨cand.prId, cand.score, m.title, m.description, m.createdAt, m.files⟩)
    ∧ (∀ cand : Candidate, mapGet st.metadata cand.prId = none →
        st.storage = none → hydrateCandidate st cand = none)
    ∧ (∀ (cand : Candidate) (stor : StorageState) (r : PRRecord),
        mapGet st.metadata cand.prId = none → st.storage = some stor →
        storageGet stor cand.prId = some r →
        hydrateCandidate st cand
          = some ⟨r.prId, cand.score, r.title, r.description, r.createdAt, r.files⟩) := by
  have happ : query ++ "\n" ++ "" = query ++ "\n" := by
    apply congrArg String.mk
    show (query ++ "\n" ++ "").data = (query ++ "\n").data
    simp [String.data_append]
  refine ⟨?_, ?_, ?_, ?_, ?_, ?_⟩
  · simp [searchOp, pipelineRun, happ]
  · simp [searchOp, pipelineRun, happ]
  · simp [searchOp, pipelineRun, happ]
  · intro cand m hm
    simp [hydrateCandidate, hm]
  · intro cand hm hs
    simp [hydrateCandidate, hm, hs]
  · intro cand stor r hm hs hr
    simp [hydrateCandidate, hm, hs, hr]

/-- Witness for C8 amended: concrete hydrated searches on the tie state
(mirrored hit) and the empty-mirror state (storage fall-through). -/
theorem C8_amended_witness :
    (mapGet stTie.metadata (5:ℚ) = some ⟨5, 0, 0, "t5", "d5", 10, ["a"]⟩
      ∧ hydrateCandidate stTie ⟨5, 1⟩
          = some ⟨5, 1, "t5", "d5", 10, ["a"]⟩)
    ∧ (mapGet stEmptyMirror.metadata (1:ℚ) = none
      ∧ stEmptyMirror.storage = some storOne
      ∧ storageGet storOne 1 = some ⟨1, "t", "d", ["a"], [1], [1], 5⟩
      ∧ hydrateCandidate stEmptyMirror ⟨1, 1⟩
          = some ⟨1, 1, "t", "d", 5, ["a"]⟩) := by
  refine ⟨⟨by decide, ?_⟩, ⟨by decide, rfl, by decide, ?_⟩⟩
  · exact (C8_amended ctxUnit stTie "q" 10).2.2.2.1 ⟨5, 1⟩
      ⟨5, 0, 0, "t5", "d5", 10, ["a"]⟩ (by decide)
  · exact (C8_amended ctxUnit stEmptyMirror "q" 10).2.2.2.2.2 ⟨1, 1⟩
      storOne ⟨1, "t", "d", ["a"], [1], [1], 5⟩ (by decide) rfl (by decide)

end PRSense
